import Mathlib

/-!
Shallow embedding of the library-execution trust and status-aggregation
engine of coc-xo (src/client/eslintClient.ts together with its type
definitions and src/constants.ts).

Modelling conventions:
* JavaScript `Map` / `Set` / plain-object state is modelled as
  insertion-ordered association lists (`mapGet` / `mapSet` / `mapDelete`,
  `setAdd` / `setDelete`), matching the iteration-order semantics of the
  JS collections.
* The mutable `ExecutionInfo` objects are shared by reference between
  `libraryPath2ExecutionInfo`, `workspaceFolder2ExecutionInfos`,
  `ResourceInfo.executionInfo` and `lastExecutionInfo`; they are modelled
  as records in a heap addressed by allocation order (`heap`, `nextAddr`),
  and the registries store heap addresses.  JS reference equality on
  `ExecutionInfo` corresponds to equality of addresses.
* `coc.nvim` environment facilities are threaded as parameters:
  `Workspace.getWorkspaceFolder` becomes `gwf : String → Option String`
  (mapping a uri to the owning workspace-folder uri, if any) and the
  active document (`Workspace.document`) becomes `doc : Option Doc`.
* A `DiagnosticCollection` is an insertion-ordered map from uri to the
  published diagnostics; `Languages.registerCodeActionProvider` allocates
  a fresh provider id which stays in `liveProviders` until disposed.
* `context.globalState.update` writes are mirrored in the `persisted*`
  fields; `client.sendNotification(DidChangeConfigurationNotification)`
  increments `configRefreshCount`.
-/

namespace XoClient

/-- Lookup in an insertion-ordered association list (JS `Map.get` /
property read on a plain object). -/
def mapGet {α β : Type} [DecidableEq α] : List (α × β) → α → Option β
  | [], _ => none
  | (k, v) :: rest, key => if k = key then some v else mapGet rest key

/-- Update in an insertion-ordered association list: an existing key keeps
its position, a new key is appended (JS `Map.set` / property write). -/
def mapSet {α β : Type} [DecidableEq α] : List (α × β) → α → β → List (α × β)
  | [], key, value => [(key, value)]
  | (k, v) :: rest, key, value =>
    if k = key then (k, value) :: rest else (k, v) :: mapSet rest key value

/-- Removal from an association list (JS `Map.delete` / `delete obj[k]`). -/
def mapDelete {α β : Type} [DecidableEq α] : List (α × β) → α → List (α × β)
  | [], _ => []
  | (k, v) :: rest, key => if k = key then rest else (k, v) :: mapDelete rest key

/-- JS `Set.add`: append if not yet present. -/
def setAdd {α : Type} [DecidableEq α] (s : List α) (x : α) : List α :=
  if x ∈ s then s else s ++ [x]

/-- JS `Set.delete`. -/
def setDelete {α : Type} [DecidableEq α] (s : List α) (x : α) : List α :=
  s.erase x

/-- `linter` from src/constants.ts. -/
def linter : String := "eslint"

/-- The scope of ExecutionParams: `'local' | 'global'` (types.ts).  `loc`
stands for the string literal `'local'` and `glob` for `'global'`. -/
inductive Scope
  | loc
  | glob
deriving DecidableEq, Repr

/-- `ExecutionParams` (types.ts). -/
structure ExecutionParams where
  scope : Scope
  libraryPath : String
deriving DecidableEq, Repr

/-- `ConfirmExecutionParams` (types.ts): ExecutionParams plus the uri of
the requesting resource. -/
structure ConfirmExecutionParams where
  scope : Scope
  libraryPath : String
  uri : String
deriving DecidableEq, Repr

/-- The `ExecutionParams` part of a `ConfirmExecutionParams`. -/
def ConfirmExecutionParams.toExecutionParams (p : ConfirmExecutionParams) : ExecutionParams :=
  { scope := p.scope, libraryPath := p.libraryPath }

/-- `ConfirmExecutionResult` (types.ts): denied=1, confirmationPending=2,
disabled=3, approved=4. -/
inductive ConfirmExecutionResult
  | denied
  | confirmationPending
  | disabled
  | approved
deriving DecidableEq, Repr

/-- `Status` (types.ts): ok=1, warn=2, error=3, confirmationPending=4,
executionDisabled=5, executionDenied=6. -/
inductive Status
  | ok
  | warn
  | error
  | confirmationPending
  | executionDisabled
  | executionDenied
deriving DecidableEq, Repr

/-- `ConfirmExecutionResult.toStatus` (types.ts). -/
def ConfirmExecutionResult.toStatus : ConfirmExecutionResult → Status
  | ConfirmExecutionResult.denied => Status.executionDenied
  | ConfirmExecutionResult.confirmationPending => Status.confirmationPending
  | ConfirmExecutionResult.disabled => Status.executionDisabled
  | ConfirmExecutionResult.approved => Status.ok

/-- `ConfirmationSelection` (types.ts): deny=1, disable=2, allow=3,
alwaysAllow=4. -/
inductive ConfirmationSelection
  | deny
  | disable
  | allow
  | alwaysAllow
deriving DecidableEq, Repr

/-- A published diagnostic (only the fields the client constructs at
eslintClient.ts handleEditor). -/
structure Diagnostic where
  range : Nat × Nat × Nat × Nat
  message : String
  severity : Nat
  source : String
deriving DecidableEq, Repr

/-- DiagnosticSeverity.Warning. -/
def warningSeverity : Nat := 2

/-- The message of the synthetic confirmation-pending diagnostic
(eslintClient.ts handleEditor). -/
def diagnosticMessage : String :=
  "ESLint is disabled since its execution has not been approved or denied yet. Use :CocCommand eslint.showOutputChannel to open the approval dialog."

/-- `ExecutionInfo` (types.ts).  `diagnostics` models the per-info
`DiagnosticCollection` as a map uri -> published diagnostics;
`codeActionProvider` holds the id of the registered provider. -/
structure ExecutionInfo where
  params : ExecutionParams
  result : ConfirmExecutionResult
  editorErrorUri : Option String
  diagnostics : List (String × List Diagnostic)
  codeActionProvider : Option Nat
deriving DecidableEq, Repr

/-- `ResourceInfo` (types.ts); `executionInfo` is a heap address. -/
structure ResourceInfo where
  status : Status
  executionInfo : Option Nat
deriving DecidableEq, Repr

/-- `StatusParams` (types.ts). -/
structure StatusParams where
  uri : String
  state : Status
deriving DecidableEq, Repr

/-- The slice of a coc.nvim `Document` the engine reads.  `wordRange0` is
`doc.getWordRangeAtPosition(Position.create(0, 0))`. -/
structure Doc where
  uri : String
  attached : Bool
  filetype : String
  wordRange0 : Option (Nat × Nat × Nat × Nat)
deriving DecidableEq, Repr

/-- `flaggedLanguages` (eslintClient.ts). -/
def flaggedLanguages : List String :=
  ["javascript", "javascriptreact", "typescript", "typescriptreact"]

/-- The complete mutable state of the client engine: the module-level
variables of eslintClient.ts plus the persisted globalState mirror and
the observable notification count. -/
structure ClientState where
  /-- `eslintExecutionState.libs`: the persisted per-library decisions as
  loaded in memory (plain object libraryPath -> boolean). -/
  eslintExecutionLibs : List (String × Bool)
  /-- `eslintAlwaysAllowExecutionState`. -/
  eslintAlwaysAllowExecutionState : Bool
  /-- durable copy under `eslintExecutionKey` (context.globalState). -/
  persistedLibs : List (String × Bool)
  /-- durable copy under `eslintAlwaysAllowExecutionKey`. -/
  persistedAlwaysAllow : Bool
  /-- `sessionState : Map<string, ExecutionParams>`. -/
  sessionState : List (String × ExecutionParams)
  /-- `disabledLibraries : Set<string>`. -/
  disabledLibraries : List String
  /-- `resource2ResourceInfo : Map<string, ResourceInfo>`. -/
  resource2ResourceInfo : List (String × ResourceInfo)
  /-- `globalStatus : Status | undefined`. -/
  globalStatus : Option Status
  /-- `libraryPath2ExecutionInfo : Map<string, ExecutionInfo>` (addresses). -/
  libraryPath2ExecutionInfo : List (String × Nat)
  /-- `workspaceFolder2ExecutionInfos : Map<string, ExecutionInfo[]>`. -/
  workspaceFolder2ExecutionInfos : List (String × List Nat)
  /-- the allocated `ExecutionInfo` objects, addressed by allocation order. -/
  heap : List (Nat × ExecutionInfo)
  /-- next free heap address. -/
  nextAddr : Nat
  /-- `lastExecutionInfo : ExecutionInfo | undefined` (an address). -/
  lastExecutionInfo : Option Nat
  /-- ids of registered, not yet disposed code-action providers. -/
  liveProviders : List Nat
  /-- next fresh provider id. -/
  nextProviderId : Nat
  /-- number of `DidChangeConfigurationNotification`s sent to the server. -/
  configRefreshCount : Nat
deriving DecidableEq, Repr

/-- The state at activation: empty registries, persisted state as loaded
by `activate` (src/index.ts) with no prior decisions. -/
def initialState : ClientState :=
  { eslintExecutionLibs := [],
    eslintAlwaysAllowExecutionState := false,
    persistedLibs := [],
    persistedAlwaysAllow := false,
    sessionState := [],
    disabledLibraries := [],
    resource2ResourceInfo := [],
    globalStatus := none,
    libraryPath2ExecutionInfo := [],
    workspaceFolder2ExecutionInfos := [],
    heap := [],
    nextAddr := 0,
    lastExecutionInfo := none,
    liveProviders := [],
    nextProviderId := 0,
    configRefreshCount := 0 }

/-- In-place update of the heap record at `addr` (mutation of a shared
`ExecutionInfo` object); a no-op on an unallocated address. -/
def heapModify (h : List (Nat × ExecutionInfo)) (addr : Nat)
    (f : ExecutionInfo → ExecutionInfo) : List (Nat × ExecutionInfo) :=
  match mapGet h addr with
  | none => h
  | some info => mapSet h addr (f info)

/-- `updateExecutionInfo` (eslintClient.ts lines 201-215): upsert of the
ExecutionInfo for `params.libraryPath`; a fresh info starts with an empty
diagnostic collection and no provider. -/
def updateExecutionInfo (s : ClientState) (params : ExecutionParams)
    (result : ConfirmExecutionResult) : ClientState :=
  match mapGet s.libraryPath2ExecutionInfo params.libraryPath with
  | none =>
    let a := s.nextAddr
    let info : ExecutionInfo :=
      { params := { libraryPath := params.libraryPath, scope := params.scope },
        result := result,
        editorErrorUri := none,
        codeActionProvider := none,
        diagnostics := [] }
    { s with heap := mapSet s.heap a info,
             nextAddr := a + 1,
             libraryPath2ExecutionInfo := mapSet s.libraryPath2ExecutionInfo params.libraryPath a }
  | some a =>
    { s with heap := heapModify s.heap a (fun info => { info with result := result }) }

/-- `updateStatusInfo` (eslintClient.ts lines 217-229): records the
pushed per-resource status and unconditionally overwrites `globalStatus`. -/
def updateStatusInfo (param : StatusParams) (s : ClientState) : ClientState :=
  let s1 := { s with globalStatus := some param.state }
  match mapGet s1.resource2ResourceInfo param.uri with
  | none =>
    let fresh : ResourceInfo := { executionInfo := none, status := param.state }
    { s1 with resource2ResourceInfo := mapSet s1.resource2ResourceInfo param.uri fresh }
  | some info =>
    let upd : ResourceInfo := { info with status := param.state }
    { s1 with resource2ResourceInfo := mapSet s1.resource2ResourceInfo param.uri upd }

/-- `getExecutionInfo` (eslintClient.ts lines 231-247). -/
def getExecutionInfo (gwf : String → Option String) (s : ClientState)
    (doc : Option Doc) (strict : Bool) : Option Nat :=
  match doc with
  | none => none
  | some d =>
    match mapGet s.resource2ResourceInfo d.uri with
    | some info => info.executionInfo
    | none =>
      if !strict then
        match gwf d.uri with
        | some folderUri =>
          (mapGet s.workspaceFolder2ExecutionInfos folderUri).bind List.head?
        | none => none
      else none

/-- `clearInfo` (eslintClient.ts lines 249-254): clear the collection and
dispose the provider (the `codeActionProvider` field itself is left set). -/
def clearInfo (s : ClientState) (addr : Nat) : ClientState :=
  match mapGet s.heap addr with
  | none => s
  | some info =>
    let live1 :=
      match info.codeActionProvider with
      | some p => s.liveProviders.erase p
      | none => s.liveProviders
    { s with heap := mapSet s.heap addr ({ info with diagnostics := [] }),
             liveProviders := live1 }

/-- `clearDiagnosticState` (eslintClient.ts lines 256-262). -/
def clearDiagnosticState (s : ClientState) (libraryPath : String) : ClientState :=
  match mapGet s.libraryPath2ExecutionInfo libraryPath with
  | none => s
  | some addr => clearInfo s addr

/-- `clearAllDiagnosticState` (eslintClient.ts lines 264-269): `clearInfo`
on a copy of all registered infos. -/
def clearAllDiagnosticState (s : ClientState) : ClientState :=
  (s.libraryPath2ExecutionInfo.map Prod.snd).foldl clearInfo s

/-- `clearLastExecutionInfo` (eslintClient.ts lines 446-459). -/
def clearLastExecutionInfo (s : ClientState) : ClientState :=
  match s.lastExecutionInfo with
  | none => s
  | some addr =>
    match mapGet s.heap addr with
    | none => { s with lastExecutionInfo := none }
    | some info =>
      let live1 :=
        match info.codeActionProvider with
        | some p => s.liveProviders.erase p
        | none => s.liveProviders
      let info1 := { info with codeActionProvider := none }
      let info2 :=
        match info1.editorErrorUri with
        | some u =>
          { info1 with diagnostics := mapDelete info1.diagnostics u,
                       editorErrorUri := none }
        | none => info1
      { s with heap := mapSet s.heap addr info2,
               liveProviders := live1,
               lastExecutionInfo := none }

/-- `handleEditor` (eslintClient.ts lines 461-521): publish the synthetic
pending diagnostic and register the remediation code action for the
active resource, then remember its info as `lastExecutionInfo`. -/
def handleEditor (s : ClientState) (doc : Doc) : ClientState :=
  let uri := doc.uri
  match mapGet s.resource2ResourceInfo uri with
  | none => s
  | some resourceInfo =>
    match resourceInfo.executionInfo with
    | none => s
    | some addr =>
      match mapGet s.heap addr with
      | none => s
      | some info =>
        let s2 :=
          if info.result = ConfirmExecutionResult.confirmationPending ∧
              info.editorErrorUri ≠ some uri then
            let diagnostic : Diagnostic :=
              { range := doc.wordRange0.getD (0, 0, 0, 0),
                message := diagnosticMessage,
                severity := warningSeverity,
                source := linter }
            let info1 := { info with diagnostics := mapSet info.diagnostics uri [diagnostic] }
            let info2 :=
              match info1.editorErrorUri with
              | some old => { info1 with diagnostics := mapDelete info1.diagnostics old }
              | none => info1
            let info3 := { info2 with editorErrorUri := some uri }
            let live1 :=
              match info3.codeActionProvider with
              | some p => s.liveProviders.erase p
              | none => s.liveProviders
            let pid := s.nextProviderId
            let info4 := { info3 with codeActionProvider := some pid }
            { s with heap := mapSet s.heap addr info4,
                     liveProviders := live1 ++ [pid],
                     nextProviderId := pid + 1 }
          else s
        { s2 with lastExecutionInfo := some addr }

/-- The scan loop of `findApplicableStatus` (eslintClient.ts lines
538-550), written over the list of candidate results. -/
def scanLoop : Option ConfirmExecutionResult → List ConfirmExecutionResult →
    Option ConfirmExecutionResult
  | acc, [] => acc
  | none, r :: rest => scanLoop (some r) rest
  | some acc, r :: rest =>
    if r = ConfirmExecutionResult.confirmationPending then some r
    else if r = ConfirmExecutionResult.denied ∨ r = ConfirmExecutionResult.disabled then
      scanLoop (some r) rest
    else scanLoop (some acc) rest

/-- The tail of `findApplicableStatus`: reduce the candidate list
(falling back to all known infos when `candidates` is undefined) and map
the reduced result to a `Status`. -/
def scanFinish (s : ClientState) (candidates : Option (List Nat)) : Status × Bool :=
  let addrs := candidates.getD (s.libraryPath2ExecutionInfo.map Prod.snd)
  let results := (addrs.filterMap (fun a => mapGet s.heap a)).map ExecutionInfo.result
  match scanLoop none results with
  | some r => (ConfirmExecutionResult.toStatus r, false)
  | none => (Status.ok, false)

/-- `findApplicableStatus` (eslintClient.ts lines 523-552). -/
def findApplicableStatus (gwf : String → Option String) (s : ClientState)
    (editor : Option Doc) : Status × Bool :=
  match editor with
  | some ed =>
    match mapGet s.resource2ResourceInfo ed.uri with
    | some resourceInfo => (resourceInfo.status, true)
    | none =>
      match gwf ed.uri with
      | some folderUri => scanFinish s (mapGet s.workspaceFolder2ExecutionInfos folderUri)
      | none => scanFinish s none
  | none => scanFinish s none

/-- `updateStatusBarAndDiagnostics` (eslintClient.ts lines 443-567)
restricted to its registry effects; the trailing
`findApplicableStatus` / `updateStatusBar` pair only repaints the status
bar and is modelled separately by `findApplicableStatus`. -/
def updateStatusBarAndDiagnostics (gwf : String → Option String) (doc : Option Doc)
    (s : ClientState) : ClientState :=
  let executionInfo := getExecutionInfo gwf s doc true
  let s1 := if s.lastExecutionInfo ≠ executionInfo then clearLastExecutionInfo s else s
  match doc with
  | some d =>
    if d.attached && flaggedLanguages.contains d.filetype then handleEditor s1 d
    else clearLastExecutionInfo s1
  | none => clearLastExecutionInfo s1

/-- Program points of the ConfirmExecution handler at which an unexpected
exception may be raised: during the decision computation, during the
registry updates, or inside the status refresh. -/
inductive FaultPoint
  | noFault
  | decideFault
  | registryFault
  | refreshFault
deriving DecidableEq, Repr

/-- The decision computation of the ConfirmExecution handler
(eslintClient.ts lines 1111-1123): the precedence chain disabled >
stored boolean > alwaysAllow, with the diagnostic-clearing side effect
on the stored-boolean and always-allow branches; `none` stands for the
still-undefined `result` that the caller defaults to
confirmationPending. -/
def confirmDecide (libraryPath : String) (s : ClientState) :
    Option ConfirmExecutionResult × ClientState :=
  if libraryPath ∈ s.disabledLibraries then
    (some ConfirmExecutionResult.disabled, s)
  else
    match mapGet s.eslintExecutionLibs libraryPath with
    | some st =>
      (some (if st then ConfirmExecutionResult.approved else ConfirmExecutionResult.denied),
        clearDiagnosticState s libraryPath)
    | none =>
      if s.eslintAlwaysAllowExecutionState = true then
        (some ConfirmExecutionResult.approved, clearDiagnosticState s libraryPath)
      else (none, s)

/-- The ExecutionInfo upsert of the ConfirmExecution handler
(eslintClient.ts lines 1125-1147): creates a fresh info (registering it
under the requesting resource's workspace folder) or updates the
existing one's `result` in place; returns the info's address. -/
def confirmUpsertExecutionInfo (gwf : String → Option String)
    (params : ConfirmExecutionParams) (result : ConfirmExecutionResult)
    (s : ClientState) : Nat × ClientState :=
  match mapGet s.libraryPath2ExecutionInfo params.libraryPath with
  | none =>
    let a := s.nextAddr
    let info : ExecutionInfo :=
      { params := params.toExecutionParams,
        result := result,
        codeActionProvider := none,
        diagnostics := [],
        editorErrorUri := none }
    let sA := { s with
      heap := mapSet s.heap a info,
      nextAddr := a + 1,
      libraryPath2ExecutionInfo := mapSet s.libraryPath2ExecutionInfo params.libraryPath a }
    match gwf params.uri with
    | some folderUri =>
      let infos := (mapGet sA.workspaceFolder2ExecutionInfos folderUri).getD []
      let wf := mapSet sA.workspaceFolder2ExecutionInfos folderUri (infos ++ [a])
      (a, { sA with workspaceFolder2ExecutionInfos := wf })
    | none => (a, sA)
  | some a =>
    (a, { s with heap := heapModify s.heap a (fun info => { info with result := result }) })

/-- The ResourceInfo upsert of the ConfirmExecution handler
(eslintClient.ts lines 1148-1157). -/
def confirmUpsertResourceInfo (params : ConfirmExecutionParams)
    (result : ConfirmExecutionResult) (addr : Nat) (s : ClientState) : ClientState :=
  match mapGet s.resource2ResourceInfo params.uri with
  | none =>
    let fresh : ResourceInfo :=
      { status := ConfirmExecutionResult.toStatus result, executionInfo := some addr }
    { s with resource2ResourceInfo := mapSet s.resource2ResourceInfo params.uri fresh }
  | some ri =>
    let upd : ResourceInfo := { ri with status := ConfirmExecutionResult.toStatus result }
    { s with resource2ResourceInfo := mapSet s.resource2ResourceInfo params.uri upd }

/-- The `client.onRequest(ConfirmExecution.type)` handler body
(eslintClient.ts lines 1107-1164), the operation the confirmation
semaphore runs.  The `try`/`catch` wrapping the body maps an exception
raised in the decision computation or the registry updates to
`ConfirmExecutionResult.denied`.  `updateStatusBarAndDiagnostics()` is an
async function invoked WITHOUT `await` (line 1158): calling it never
throws synchronously, so a fault inside the detached refresh neither
reaches the `catch` nor changes the already-computed response; it is
modelled by skipping the refresh while returning the computed result. -/
def confirmExecutionHandler (gwf : String → Option String) (fault : FaultPoint)
    (doc : Option Doc) (params : ConfirmExecutionParams) (s : ClientState) :
    ConfirmExecutionResult × ClientState :=
  let s0 :=
    { s with sessionState := mapSet s.sessionState params.libraryPath params.toExecutionParams }
  if fault = FaultPoint.decideFault then (ConfirmExecutionResult.denied, s0) else
  let step1 := confirmDecide params.libraryPath s0
  let result := step1.1.getD ConfirmExecutionResult.confirmationPending
  let s1 := step1.2
  if fault = FaultPoint.registryFault then (ConfirmExecutionResult.denied, s1) else
  let step2 := confirmUpsertExecutionInfo gwf params result s1
  let s3 := confirmUpsertResourceInfo params result step2.1 step2.2
  if fault = FaultPoint.refreshFault then (result, s3)
  else (result, updateStatusBarAndDiagnostics gwf doc s3)

/-- `askForLibraryConfirmation` (eslintClient.ts lines 271-338).
`item` is the outcome of the information-message dialog (`none` when the
dialog was dismissed); `update` tells whether the
`updateStatusBarAndDiagnostics` callback was supplied, `hasClient`
whether a language client was supplied (the notification target). -/
def askForLibraryConfirmation (gwf : String → Option String) (hasClient : Bool)
    (doc : Option Doc) (params : ExecutionParams)
    (item : Option ConfirmationSelection) (update : Bool) (s : ClientState) : ClientState :=
  let s0 := { s with sessionState := mapSet s.sessionState params.libraryPath params }
  match item with
  | none => s0
  | some sel =>
    let s1 :=
      if sel = ConfirmationSelection.disable then
        let sA := { s0 with disabledLibraries := setAdd s0.disabledLibraries params.libraryPath }
        let sB := updateExecutionInfo sA params ConfirmExecutionResult.disabled
        clearDiagnosticState sB params.libraryPath
      else
        let sA := { s0 with disabledLibraries := setDelete s0.disabledLibraries params.libraryPath }
        if sel = ConfirmationSelection.allow ∨ sel = ConfirmationSelection.deny then
          let value : Bool := sel = ConfirmationSelection.allow
          let newLibs := mapSet sA.eslintExecutionLibs params.libraryPath value
          let sB := { sA with eslintExecutionLibs := newLibs }
          let sC := { sB with persistedLibs := sB.eslintExecutionLibs }
          let sD := updateExecutionInfo sC params
            (if value then ConfirmExecutionResult.approved else ConfirmExecutionResult.denied)
          clearDiagnosticState sD params.libraryPath
        else if sel = ConfirmationSelection.alwaysAllow then
          let sB := { sA with eslintAlwaysAllowExecutionState := true }
          let sC := { sB with persistedAlwaysAllow := sB.eslintAlwaysAllowExecutionState }
          let sD := updateExecutionInfo sC params ConfirmExecutionResult.approved
          clearAllDiagnosticState sD
        else sA
    let s2 := if update then updateStatusBarAndDiagnostics gwf doc s1 else s1
    if hasClient then { s2 with configRefreshCount := s2.configRefreshCount + 1 } else s2

/-- The reset granularities offered by `resetLibraryConfirmations`. -/
inductive ResetKind
  | session
  | alwaysAllowKind
  | allKind
deriving DecidableEq, Repr

/-- The quick-pick item list of `resetLibraryConfirmations` (lines
348-354): `alwaysAllow` is spliced in at index 1 only while the global
flag is set. -/
def resetQuickPickItems (s : ClientState) : List ResetKind :=
  if s.eslintAlwaysAllowExecutionState then
    [ResetKind.session, ResetKind.alwaysAllowKind, ResetKind.allKind]
  else [ResetKind.session, ResetKind.allKind]

/-- The common tail of `resetLibraryConfirmations` (lines 383-391):
persist both keys, wipe `disabledLibraries` and every registry, run the
update callback and notify the server. -/
def resetFinish (gwf : String → Option String) (hasClient : Bool) (doc : Option Doc)
    (update : Bool) (s : ClientState) : ClientState :=
  let s1 := { s with persistedLibs := s.eslintExecutionLibs,
                     persistedAlwaysAllow := s.eslintAlwaysAllowExecutionState }
  let s2 := { s1 with disabledLibraries := [],
                      libraryPath2ExecutionInfo := [],
                      resource2ResourceInfo := [],
                      workspaceFolder2ExecutionInfos := [] }
  let s3 := if update then updateStatusBarAndDiagnostics gwf doc s2 else s2
  if hasClient then { s3 with configRefreshCount := s3.configRefreshCount + 1 } else s3

/-- `resetLibraryConfirmations` (eslintClient.ts lines 340-392).
`selectedIdx` is the index chosen in the quick pick (`none` models the
dismissed pick, `showQuickpick` returning -1); `askItem` is the answer to
the nested confirmation dialog on the single-session-library path. -/
def resetLibraryConfirmations (gwf : String → Option String) (hasClient : Bool)
    (doc : Option Doc) (selectedIdx : Option Nat)
    (askItem : Option ConfirmationSelection) (update : Bool) (s : ClientState) : ClientState :=
  match selectedIdx.bind (resetQuickPickItems s).get? with
  | none => s
  | some kind =>
    match kind with
    | ResetKind.allKind =>
      resetFinish gwf hasClient doc update
        ({ s with eslintExecutionLibs := [], eslintAlwaysAllowExecutionState := false })
    | ResetKind.alwaysAllowKind =>
      resetFinish gwf hasClient doc update ({ s with eslintAlwaysAllowExecutionState := false })
    | ResetKind.session =>
      if s.sessionState.length = 1 then
        match s.sessionState.head? with
        | some entry => askForLibraryConfirmation gwf hasClient doc entry.2 askItem update s
        | none => s
      else
        let cleared := (s.sessionState.map Prod.fst).foldl mapDelete s.eslintExecutionLibs
        resetFinish gwf hasClient doc update ({ s with eslintExecutionLibs := cleared })

/-- The `client.onNotification(StatusNotification.type)` handler
(eslintClient.ts lines 946-949). -/
def statusNotificationHandler (gwf : String → Option String) (doc : Option Doc)
    (param : StatusParams) (s : ClientState) : ClientState :=
  updateStatusBarAndDiagnostics gwf doc (updateStatusInfo param s)

/-- The ResourceInfo upsert of the `NoConfigRequest` handler
(eslintClient.ts lines 990-1000). -/
def noConfigRequestHandler (gwf : String → Option String) (doc : Option Doc)
    (uri : String) (s : ClientState) : ClientState :=
  let s1 :=
    match mapGet s.resource2ResourceInfo uri with
    | none =>
      let fresh : ResourceInfo := { status := Status.warn, executionInfo := none }
      { s with resource2ResourceInfo := mapSet s.resource2ResourceInfo uri fresh }
    | some ri =>
      let upd : ResourceInfo := { ri with status := Status.warn }
      { s with resource2ResourceInfo := mapSet s.resource2ResourceInfo uri upd }
  updateStatusBarAndDiagnostics gwf doc s1

/-- The `Workspace.onDidCloseTextDocument` subscription
(eslintClient.ts lines 1188-1191). -/
def didCloseTextDocumentHandler (uri : String) (s : ClientState) : ClientState :=
  { s with resource2ResourceInfo := mapDelete s.resource2ResourceInfo uri }

/-! ## Association-list lemmas -/

theorem mapGet_mapSet {α β : Type} [DecidableEq α] (m : List (α × β)) (k a : α) (v : β) :
    mapGet (mapSet m k v) a = if k = a then some v else mapGet m a := by
  induction m with
  | nil => by_cases h : k = a <;> simp [mapSet, mapGet, h]
  | cons e rest ih =>
    obtain ⟨k', v'⟩ := e
    by_cases h1 : k' = k
    · subst h1
      by_cases h2 : k' = a <;> simp [mapSet, mapGet, h2]
    · by_cases h2 : k' = a
      · subst h2
        simp [mapSet, mapGet, h1, Ne.symm h1]
      · simp [mapSet, mapGet, h1, h2, ih]

theorem mapGet_mapSet_self {α β : Type} [DecidableEq α] (m : List (α × β)) (k : α) (v : β) :
    mapGet (mapSet m k v) k = some v := by
  simp [mapGet_mapSet]

theorem mapGet_mapSet_ne {α β : Type} [DecidableEq α] (m : List (α × β)) (k a : α) (v : β)
    (h : k ≠ a) : mapGet (mapSet m k v) a = mapGet m a := by
  simp [mapGet_mapSet, h]

theorem mem_of_mapGet_eq_some {α β : Type} [DecidableEq α] {m : List (α × β)} {k : α} {v : β}
    (h : mapGet m k = some v) : (k, v) ∈ m := by
  induction m with
  | nil => simp [mapGet] at h
  | cons e rest ih =>
    obtain ⟨k', v'⟩ := e
    by_cases h1 : k' = k
    · subst h1
      simp [mapGet] at h
      simp [h]
    · simp [mapGet, h1] at h
      exact List.mem_cons_of_mem _ (ih h)

theorem mem_mapSet {α β : Type} [DecidableEq α] {m : List (α × β)} {k : α} {v : β}
    {e : α × β} (h : e ∈ mapSet m k v) : e = (k, v) ∨ e ∈ m := by
  induction m with
  | nil => simp [mapSet] at h; simp [h]
  | cons e' rest ih =>
    obtain ⟨k', v'⟩ := e'
    by_cases h1 : k' = k
    · subst h1
      simp [mapSet] at h
      rcases h with h | h
      · exact Or.inl h
      · exact Or.inr (List.mem_cons_of_mem _ h)
    · simp [mapSet, h1] at h
      rcases h with h | h
      · exact Or.inr (by simp [h])
      · rcases ih h with h2 | h2
        · exact Or.inl h2
        · exact Or.inr (List.mem_cons_of_mem _ h2)

theorem mapDelete_sublist {α β : Type} [DecidableEq α] (m : List (α × β)) (k : α) :
    (mapDelete m k).Sublist m := by
  induction m with
  | nil => simp [mapDelete]
  | cons e rest ih =>
    obtain ⟨k', v'⟩ := e
    by_cases h1 : k' = k
    · rw [show mapDelete ((k', v') :: rest) k = rest by simp [mapDelete, h1]]
      exact List.sublist_cons_self (k', v') rest
    · rw [show mapDelete ((k', v') :: rest) k = (k', v') :: mapDelete rest k by
        simp [mapDelete, h1]]
      exact List.Sublist.cons₂ (k', v') ih

theorem mem_mapDelete {α β : Type} [DecidableEq α] {m : List (α × β)} {k : α} {e : α × β}
    (h : e ∈ mapDelete m k) : e ∈ m :=
  (mapDelete_sublist m k).mem h

theorem keys_mapSet {α β : Type} [DecidableEq α] (m : List (α × β)) (k : α) (v : β) :
    (mapSet m k v).map Prod.fst =
      if k ∈ m.map Prod.fst then m.map Prod.fst else m.map Prod.fst ++ [k] := by
  induction m with
  | nil => simp [mapSet]
  | cons e rest ih =>
    obtain ⟨k', v'⟩ := e
    by_cases h1 : k' = k
    · subst h1
      simp [mapSet]
    · by_cases h2 : k ∈ rest.map Prod.fst <;>
        simp [mapSet, h1, h2, ih, Ne.symm h1]

theorem nodup_keys_mapSet {α β : Type} [DecidableEq α] {m : List (α × β)} (k : α) (v : β)
    (h : (m.map Prod.fst).Nodup) : ((mapSet m k v).map Prod.fst).Nodup := by
  rw [keys_mapSet]
  by_cases h2 : k ∈ m.map Prod.fst
  · simpa [h2] using h
  · simpa [h2, List.nodup_append] using h

theorem nodup_keys_mapDelete {α β : Type} [DecidableEq α] {m : List (α × β)} (k : α)
    (h : (m.map Prod.fst).Nodup) : ((mapDelete m k).map Prod.fst).Nodup :=
  ((mapDelete_sublist m k).map Prod.fst).nodup h

/-! ## Frame lemmas: which parts of the state each operation leaves alone -/

/-- The diagnostics-lifecycle operations (`clearInfo`,
`clearLastExecutionInfo`, `handleEditor` and their compositions) only
touch the heap, the live providers, the provider counter and
`lastExecutionInfo`; everything else is framed. -/
def RegistryFrame (s t : ClientState) : Prop :=
  t.eslintExecutionLibs = s.eslintExecutionLibs ∧
  t.eslintAlwaysAllowExecutionState = s.eslintAlwaysAllowExecutionState ∧
  t.persistedLibs = s.persistedLibs ∧
  t.persistedAlwaysAllow = s.persistedAlwaysAllow ∧
  t.sessionState = s.sessionState ∧
  t.disabledLibraries = s.disabledLibraries ∧
  t.resource2ResourceInfo = s.resource2ResourceInfo ∧
  t.globalStatus = s.globalStatus ∧
  t.libraryPath2ExecutionInfo = s.libraryPath2ExecutionInfo ∧
  t.workspaceFolder2ExecutionInfos = s.workspaceFolder2ExecutionInfos ∧
  t.nextAddr = s.nextAddr ∧
  t.configRefreshCount = s.configRefreshCount

theorem RegistryFrame.refl (s : ClientState) : RegistryFrame s s :=
  ⟨rfl, rfl, rfl, rfl, rfl, rfl, rfl, rfl, rfl, rfl, rfl, rfl⟩

theorem RegistryFrame.trans {s t u : ClientState}
    (h1 : RegistryFrame s t) (h2 : RegistryFrame t u) : RegistryFrame s u := by
  obtain ⟨a1, a2, a3, a4, a5, a6, a7, a8, a9, a10, a11, a12⟩ := h1
  obtain ⟨b1, b2, b3, b4, b5, b6, b7, b8, b9, b10, b11, b12⟩ := h2
  exact ⟨b1.trans a1, b2.trans a2, b3.trans a3, b4.trans a4, b5.trans a5, b6.trans a6,
    b7.trans a7, b8.trans a8, b9.trans a9, b10.trans a10, b11.trans a11, b12.trans a12⟩

theorem registryFrame_clearInfo (s : ClientState) (a : Nat) :
    RegistryFrame s (clearInfo s a) := by
  unfold clearInfo
  split <;> exact ⟨rfl, rfl, rfl, rfl, rfl, rfl, rfl, rfl, rfl, rfl, rfl, rfl⟩

theorem registryFrame_clearLastExecutionInfo (s : ClientState) :
    RegistryFrame s (clearLastExecutionInfo s) := by
  unfold clearLastExecutionInfo
  split
  · exact RegistryFrame.refl s
  · split <;> exact ⟨rfl, rfl, rfl, rfl, rfl, rfl, rfl, rfl, rfl, rfl, rfl, rfl⟩

theorem registryFrame_handleEditor (s : ClientState) (d : Doc) :
    RegistryFrame s (handleEditor s d) := by
  simp only [handleEditor]
  split
  · exact RegistryFrame.refl s
  · split
    · exact RegistryFrame.refl s
    · split
      · exact RegistryFrame.refl s
      · split <;> exact ⟨rfl, rfl, rfl, rfl, rfl, rfl, rfl, rfl, rfl, rfl, rfl, rfl⟩

theorem registryFrame_clearAllDiagnosticState_aux (l : List Nat) :
    ∀ s : ClientState, RegistryFrame s (l.foldl clearInfo s) := by
  induction l with
  | nil => intro s; exact RegistryFrame.refl s
  | cons a rest ih =>
    intro s
    exact RegistryFrame.trans (registryFrame_clearInfo s a) (ih (clearInfo s a))

theorem registryFrame_clearAllDiagnosticState (s : ClientState) :
    RegistryFrame s (clearAllDiagnosticState s) :=
  registryFrame_clearAllDiagnosticState_aux (s.libraryPath2ExecutionInfo.map Prod.snd) s

theorem registryFrame_updateStatusBarAndDiagnostics (gwf : String → Option String)
    (doc : Option Doc) (s : ClientState) :
    RegistryFrame s (updateStatusBarAndDiagnostics gwf doc s) := by
  unfold updateStatusBarAndDiagnostics
  have h1 : RegistryFrame s
      (if s.lastExecutionInfo ≠ getExecutionInfo gwf s doc true then clearLastExecutionInfo s
       else s) := by
    split
    · exact registryFrame_clearLastExecutionInfo s
    · exact RegistryFrame.refl s
  split
  · split
    · exact RegistryFrame.trans h1 (registryFrame_handleEditor _ _)
    · exact RegistryFrame.trans h1 (registryFrame_clearLastExecutionInfo _)
  · exact RegistryFrame.trans h1 (registryFrame_clearLastExecutionInfo _)

theorem refresh_globalStatus (gwf : String → Option String) (doc : Option Doc) (s : ClientState) :
    (updateStatusBarAndDiagnostics gwf doc s).globalStatus = s.globalStatus :=
  (registryFrame_updateStatusBarAndDiagnostics gwf doc s).2.2.2.2.2.2.2.1

/-! ## The decision equation of the ConfirmExecution handler -/

/-- The value returned by a fault-free ConfirmExecution request, as a
function of the pre-state: the precedence chain of the decision
resolver. -/
theorem confirmExecutionHandler_fst (gwf : String → Option String) (doc : Option Doc)
    (params : ConfirmExecutionParams) (s : ClientState) :
    (confirmExecutionHandler gwf FaultPoint.noFault doc params s).1 =
      (if params.libraryPath ∈ s.disabledLibraries then ConfirmExecutionResult.disabled
       else
         match mapGet s.eslintExecutionLibs params.libraryPath with
         | some true => ConfirmExecutionResult.approved
         | some false => ConfirmExecutionResult.denied
         | none =>
           if s.eslintAlwaysAllowExecutionState = true then ConfirmExecutionResult.approved
           else ConfirmExecutionResult.confirmationPending) := by
  by_cases hmem : params.libraryPath ∈ s.disabledLibraries
  · simp [confirmExecutionHandler, confirmDecide, hmem]
  · rcases hget : mapGet s.eslintExecutionLibs params.libraryPath with _ | b
    · by_cases hall : s.eslintAlwaysAllowExecutionState = true
      · simp [confirmExecutionHandler, confirmDecide, hmem, hget, hall]
      · simp [confirmExecutionHandler, confirmDecide, hmem, hget, hall]
    · cases b
      · simp [confirmExecutionHandler, confirmDecide, hmem, hget]
      · simp [confirmExecutionHandler, confirmDecide, hmem, hget]

/-! ## Concrete example inputs used by witnesses and counterexamples -/

/-- An environment with no workspace folders. -/
def gwfNone : String → Option String := fun _ => none

/-- A sample request. -/
def exampleRequest : ConfirmExecutionParams :=
  { scope := Scope.loc, libraryPath := "/proj/node_modules/linter", uri := "file:///proj/a.js" }

/-! ## Claim C1 -/

/-- Claim C1: for every ConfirmExecution request the decision resolver
follows exactly the precedence disabled > stored boolean (approved when
true, denied when false) > alwaysAllow > confirmationPending; in
particular membership in `disabledLibraries` overrides both the stored
decision and the always-allow flag. -/
theorem confirmExecution_decision_precedence (gwf : String → Option String)
    (doc : Option Doc) (params : ConfirmExecutionParams) (s : ClientState) :
    (confirmExecutionHandler gwf FaultPoint.noFault doc params s).1 =
      (if params.libraryPath ∈ s.disabledLibraries then ConfirmExecutionResult.disabled
       else
         match mapGet s.eslintExecutionLibs params.libraryPath with
         | some true => ConfirmExecutionResult.approved
         | some false => ConfirmExecutionResult.denied
         | none =>
           if s.eslintAlwaysAllowExecutionState = true then ConfirmExecutionResult.approved
           else ConfirmExecutionResult.confirmationPending) :=
  confirmExecutionHandler_fst gwf doc params s

/-! ## Claim C2 -/

/-- A state in which the stored decision for the example library is an
explicit `true`. -/
def approvedState : ClientState :=
  { initialState with eslintExecutionLibs := [("/proj/node_modules/linter", true)] }

/-- Claim C2 counterexample: an unexpected exception inside the status
refresh does NOT resolve the confirmation response to denied — the
refresh is started without `await`, so the response stays the computed
result (`approved` here), refuting the claim that an exception anywhere
in the resolution sequence (including the status refresh) fails closed. -/
theorem confirmExecution_refreshFault_not_denied :
    (confirmExecutionHandler gwfNone FaultPoint.refreshFault none exampleRequest
        approvedState).1 = ConfirmExecutionResult.approved ∧
    ConfirmExecutionResult.approved ≠ ConfirmExecutionResult.denied := by
  constructor
  · rfl
  · simp

/-- Claim C2 (amended): an unexpected exception inside the decision
computation or inside the registry updates resolves the confirmation
response to denied (fail-closed, never fail-open); an exception inside
the detached status refresh leaves the already-computed response
unchanged. -/
theorem confirmExecution_failClosed (gwf : String → Option String) (doc : Option Doc)
    (params : ConfirmExecutionParams) (s : ClientState) (fault : FaultPoint)
    (h : fault = FaultPoint.decideFault ∨ fault = FaultPoint.registryFault) :
    (confirmExecutionHandler gwf fault doc params s).1 = ConfirmExecutionResult.denied := by
  rcases h with h | h <;> subst h
  · simp [confirmExecutionHandler]
  · by_cases hmem : params.libraryPath ∈ s.disabledLibraries
    · simp [confirmExecutionHandler, confirmDecide, hmem]
    · rcases hget : mapGet s.eslintExecutionLibs params.libraryPath with _ | b
      · by_cases hall : s.eslintAlwaysAllowExecutionState = true <;>
          simp [confirmExecutionHandler, confirmDecide, hmem, hget, hall]
      · simp [confirmExecutionHandler, confirmDecide, hmem, hget]

/-- Witness for the amended claim C2 at a concrete input. -/
theorem confirmExecution_failClosed_witness :
    (confirmExecutionHandler gwfNone FaultPoint.decideFault none exampleRequest
        approvedState).1 = ConfirmExecutionResult.denied :=
  confirmExecution_failClosed gwfNone none exampleRequest approvedState
    FaultPoint.decideFault (Or.inl rfl)

/-! ## Claim C5 -/

/-- Claim C5: dismissing the library-confirmation dialog without choosing
any item changes none of the persisted per-library decisions, the
always-allow flag, `disabledLibraries` or any registry; the decision for
the library stays unset (not denied) and the request can be re-asked
later (its params stay recorded in `sessionState`). -/
theorem askForLibraryConfirmation_dismissed_noop (gwf : String → Option String)
    (hasClient : Bool) (doc : Option Doc) (params : ExecutionParams) (update : Bool)
    (s : ClientState) :
    (askForLibraryConfirmation gwf hasClient doc params none update s).eslintExecutionLibs =
        s.eslintExecutionLibs ∧
    (askForLibraryConfirmation gwf hasClient doc params none update s).persistedLibs =
        s.persistedLibs ∧
    (askForLibraryConfirmation gwf hasClient doc params none update
        s).eslintAlwaysAllowExecutionState = s.eslintAlwaysAllowExecutionState ∧
    (askForLibraryConfirmation gwf hasClient doc params none update s).persistedAlwaysAllow =
        s.persistedAlwaysAllow ∧
    (askForLibraryConfirmation gwf hasClient doc params none update s).disabledLibraries =
        s.disabledLibraries ∧
    (askForLibraryConfirmation gwf hasClient doc params none update
        s).libraryPath2ExecutionInfo = s.libraryPath2ExecutionInfo ∧
    (askForLibraryConfirmation gwf hasClient doc params none update
        s).workspaceFolder2ExecutionInfos = s.workspaceFolder2ExecutionInfos ∧
    (askForLibraryConfirmation gwf hasClient doc params none update s).resource2ResourceInfo =
        s.resource2ResourceInfo ∧
    (askForLibraryConfirmation gwf hasClient doc params none update s).heap = s.heap ∧
    (askForLibraryConfirmation gwf hasClient doc params none update s).globalStatus =
        s.globalStatus ∧
    (mapGet s.eslintExecutionLibs params.libraryPath = none →
      mapGet (askForLibraryConfirmation gwf hasClient doc params none update
        s).eslintExecutionLibs params.libraryPath = none) ∧
    mapGet (askForLibraryConfirmation gwf hasClient doc params none update s).sessionState
        params.libraryPath = some params := by
  refine ⟨rfl, rfl, rfl, rfl, rfl, rfl, rfl, rfl, rfl, rfl, fun h => h, ?_⟩
  simp only [askForLibraryConfirmation]
  exact mapGet_mapSet_self s.sessionState params.libraryPath params

/-- Witness for claim C5 at a concrete input. -/
theorem askForLibraryConfirmation_dismissed_noop_witness :
    mapGet (askForLibraryConfirmation gwfNone true none
        exampleRequest.toExecutionParams none true initialState).eslintExecutionLibs
        exampleRequest.toExecutionParams.libraryPath = none :=
  (askForLibraryConfirmation_dismissed_noop gwfNone true none
      exampleRequest.toExecutionParams true initialState).2.2.2.2.2.2.2.2.2.2.1 rfl

/-! ## Claim C10 -/

/-- Claim C10: after processing any StatusNotification the fallback
`globalStatus` equals the state carried by that notification, whatever
resource the notification concerns and whatever the previous global
status was — last-write-wins across all resources, not an aggregate. -/
theorem statusNotification_globalStatus_lastWriteWins (gwf : String → Option String)
    (doc : Option Doc) (param : StatusParams) (s : ClientState) :
    (statusNotificationHandler gwf doc param s).globalStatus = some param.state := by
  unfold statusNotificationHandler
  rw [refresh_globalStatus]
  simp only [updateStatusInfo]
  split <;> rfl

/-! ## Claim C3 -/

/-- The last candidate result that is `denied` or `disabled`, if any —
the "last candidate reporting denied or disabled overrides earlier ones"
part of the spec's scan reduction rule. -/
def lastOverride : List ConfirmExecutionResult → Option ConfirmExecutionResult
  | [] => none
  | r :: rest =>
    match lastOverride rest with
    | some x => some x
    | none =>
      if r = ConfirmExecutionResult.denied ∨ r = ConfirmExecutionResult.disabled then some r
      else none

/-- The scan reduction rule exactly as the spec states it: once ANY
candidate reports confirmationPending that wins outright; otherwise the
last candidate reporting denied or disabled overrides earlier ones;
otherwise the aggregate is ok.  (Definition follows the spec's words,
for comparison against the code's `scanLoop`.) -/
def specScanReduce (results : List ConfirmExecutionResult) : Status :=
  if ConfirmExecutionResult.confirmationPending ∈ results then Status.confirmationPending
  else
    match lastOverride results with
    | some r => ConfirmExecutionResult.toStatus r
    | none => Status.ok

/-- The spec's scan reduction applied to the code's candidate selection. -/
def specScanFinish (s : ClientState) (candidates : Option (List Nat)) : Status × Bool :=
  let addrs := candidates.getD (s.libraryPath2ExecutionInfo.map Prod.snd)
  let results := (addrs.filterMap (fun a => mapGet s.heap a)).map ExecutionInfo.result
  (specScanReduce results, false)

/-- `statusFor` exactly as claim C3 states it: a directly linked resource
returns its own status; otherwise the folder's candidate list (or all
known infos) is reduced by the spec's scan rule. -/
def specFindApplicableStatus (gwf : String → Option String) (s : ClientState)
    (editor : Option Doc) : Status × Bool :=
  match editor with
  | some ed =>
    match mapGet s.resource2ResourceInfo ed.uri with
    | some resourceInfo => (resourceInfo.status, true)
    | none =>
      match gwf ed.uri with
      | some folderUri => specScanFinish s (mapGet s.workspaceFolder2ExecutionInfos folderUri)
      | none => specScanFinish s none
  | none => specScanFinish s none

/-- Characterization of the code's scan loop: once seeded with a first
candidate, a later confirmationPending wins outright, otherwise the last
later denied/disabled wins, otherwise the seed stands. -/
theorem scanLoop_some (l : List ConfirmExecutionResult) :
    ∀ a : ConfirmExecutionResult,
      scanLoop (some a) l =
        some (if ConfirmExecutionResult.confirmationPending ∈ l then
                ConfirmExecutionResult.confirmationPending
              else (lastOverride l).getD a) := by
  induction l with
  | nil => intro a; simp [scanLoop, lastOverride]
  | cons r rest ih =>
    intro a
    by_cases hr : r = ConfirmExecutionResult.confirmationPending
    · subst hr
      simp [scanLoop]
    · by_cases hd : r = ConfirmExecutionResult.denied ∨ r = ConfirmExecutionResult.disabled
      · rw [scanLoop]
        rw [if_neg hr, if_pos hd, ih r]
        by_cases hp : ConfirmExecutionResult.confirmationPending ∈ rest
        · simp [hp, hr, Ne.symm hr]
        · simp only [List.mem_cons, hp, or_false]
          rw [if_neg (show ¬(ConfirmExecutionResult.confirmationPending = r) from
            fun h => hr h.symm)]
          rcases ho : lastOverride rest with _ | x
          · simp [lastOverride, ho, hd]
          · simp [lastOverride, ho]
      · rw [scanLoop]
        rw [if_neg hr, if_neg hd, ih a]
        by_cases hp : ConfirmExecutionResult.confirmationPending ∈ rest
        · simp [hp]
        · simp only [List.mem_cons, hp, or_false]
          rw [if_neg (show ¬(ConfirmExecutionResult.confirmationPending = r) from
            fun h => hr h.symm)]
          rcases ho : lastOverride rest with _ | x
          · simp [lastOverride, ho, hd]
          · simp [lastOverride, ho]

/-- The aggregated status claim C3 must be amended to: the FIRST
candidate seeds the aggregate unconditionally; among the remaining
candidates a confirmationPending wins outright, otherwise the last
denied/disabled wins, otherwise the seed's own result stands; the empty
candidate list gives ok. -/
def amendedScanReduce : List ConfirmExecutionResult → Status
  | [] => Status.ok
  | first :: rest =>
    ConfirmExecutionResult.toStatus
      (if ConfirmExecutionResult.confirmationPending ∈ rest then
          ConfirmExecutionResult.confirmationPending
        else (lastOverride rest).getD first)

/-- The amended scan reduction applied to the code's candidate selection. -/
def amendedScanFinish (s : ClientState) (candidates : Option (List Nat)) : Status × Bool :=
  let addrs := candidates.getD (s.libraryPath2ExecutionInfo.map Prod.snd)
  let results := (addrs.filterMap (fun a => mapGet s.heap a)).map ExecutionInfo.result
  (amendedScanReduce results, false)

/-- `statusFor` as amended: direct link first, then the folder's (or all)
candidates reduced by the amended rule. -/
def amendedFindApplicableStatus (gwf : String → Option String) (s : ClientState)
    (editor : Option Doc) : Status × Bool :=
  match editor with
  | some ed =>
    match mapGet s.resource2ResourceInfo ed.uri with
    | some resourceInfo => (resourceInfo.status, true)
    | none =>
      match gwf ed.uri with
      | some folderUri => amendedScanFinish s (mapGet s.workspaceFolder2ExecutionInfos folderUri)
      | none => amendedScanFinish s none
  | none => amendedScanFinish s none

theorem scanFinish_eq_amended (s : ClientState) (candidates : Option (List Nat)) :
    scanFinish s candidates = amendedScanFinish s candidates := by
  simp only [scanFinish, amendedScanFinish]
  rcases hres : (((candidates.getD (s.libraryPath2ExecutionInfo.map Prod.snd)).filterMap
      (fun a => mapGet s.heap a)).map ExecutionInfo.result) with _ | ⟨first, rest⟩
  · simp [scanLoop, amendedScanReduce]
  · rw [scanLoop, scanLoop_some rest first]
    simp [amendedScanReduce]

/-- A state holding two registered libraries, the first
confirmationPending and the second denied. -/
def pendingThenDeniedState : ClientState :=
  { initialState with
      heap :=
        [(0, { params := { scope := Scope.loc, libraryPath := "/a/lib" },
               result := ConfirmExecutionResult.confirmationPending,
               editorErrorUri := none, diagnostics := [], codeActionProvider := none }),
         (1, { params := { scope := Scope.loc, libraryPath := "/b/lib" },
               result := ConfirmExecutionResult.denied,
               editorErrorUri := none, diagnostics := [], codeActionProvider := none })],
      nextAddr := 2,
      libraryPath2ExecutionInfo := [("/a/lib", 0), ("/b/lib", 1)] }

/-- Claim C3 counterexample: with candidates [confirmationPending,
denied] the claim's reduction rule says confirmationPending wins
outright, but the code's scan loop merely seeds the aggregate with the
first candidate and then lets the later denied override it, yielding
executionDenied. -/
theorem findApplicableStatus_firstPending_overridden :
    findApplicableStatus gwfNone pendingThenDeniedState none =
        (Status.executionDenied, false) ∧
    specFindApplicableStatus gwfNone pendingThenDeniedState none =
        (Status.confirmationPending, false) ∧
    Status.executionDenied ≠ Status.confirmationPending := by
  refine ⟨rfl, rfl, ?_⟩
  simp

/-- Claim C3 (amended): `statusFor` returns a directly linked resource's
own status with isDirectlyLinked true, ignoring all other candidates;
otherwise it scans the folder's (else all) ExecutionInfos, where the
first candidate seeds the aggregate, a later confirmationPending wins
outright and stops the scan, otherwise the last later denied/disabled
overrides, otherwise the seed stands (ok when no candidate exists). -/
theorem findApplicableStatus_amended (gwf : String → Option String) (s : ClientState)
    (editor : Option Doc) :
    findApplicableStatus gwf s editor = amendedFindApplicableStatus gwf s editor := by
  unfold findApplicableStatus amendedFindApplicableStatus
  rcases editor with _ | ed
  · exact scanFinish_eq_amended s none
  · simp only
    rcases mapGet s.resource2ResourceInfo ed.uri with _ | ri
    · rcases gwf ed.uri with _ | folderUri
      · exact scanFinish_eq_amended s none
      · exact scanFinish_eq_amended s _
    · rfl


/-! ## Claim C4 -/

theorem refresh_disabledLibraries (gwf : String → Option String) (doc : Option Doc)
    (s : ClientState) :
    (updateStatusBarAndDiagnostics gwf doc s).disabledLibraries = s.disabledLibraries :=
  (registryFrame_updateStatusBarAndDiagnostics gwf doc s).2.2.2.2.2.1

theorem refresh_resource2ResourceInfo (gwf : String → Option String) (doc : Option Doc)
    (s : ClientState) :
    (updateStatusBarAndDiagnostics gwf doc s).resource2ResourceInfo = s.resource2ResourceInfo :=
  (registryFrame_updateStatusBarAndDiagnostics gwf doc s).2.2.2.2.2.2.1

theorem refresh_libraryPath2ExecutionInfo (gwf : String → Option String) (doc : Option Doc)
    (s : ClientState) :
    (updateStatusBarAndDiagnostics gwf doc s).libraryPath2ExecutionInfo =
      s.libraryPath2ExecutionInfo :=
  (registryFrame_updateStatusBarAndDiagnostics gwf doc s).2.2.2.2.2.2.2.2.1

theorem refresh_workspaceFolder2ExecutionInfos (gwf : String → Option String) (doc : Option Doc)
    (s : ClientState) :
    (updateStatusBarAndDiagnostics gwf doc s).workspaceFolder2ExecutionInfos =
      s.workspaceFolder2ExecutionInfos :=
  (registryFrame_updateStatusBarAndDiagnostics gwf doc s).2.2.2.2.2.2.2.2.2.1

theorem refresh_configRefreshCount (gwf : String → Option String) (doc : Option Doc)
    (s : ClientState) :
    (updateStatusBarAndDiagnostics gwf doc s).configRefreshCount = s.configRefreshCount :=
  (registryFrame_updateStatusBarAndDiagnostics gwf doc s).2.2.2.2.2.2.2.2.2.2.2

/-- The common tail of the reset workflow leaves the four
registry/session collections empty and sends exactly one configuration
notification. -/
theorem resetFinish_clears (gwf : String → Option String) (doc : Option Doc)
    (update : Bool) (s : ClientState) :
    (resetFinish gwf true doc update s).disabledLibraries = [] ∧
    (resetFinish gwf true doc update s).libraryPath2ExecutionInfo = [] ∧
    (resetFinish gwf true doc update s).workspaceFolder2ExecutionInfos = [] ∧
    (resetFinish gwf true doc update s).resource2ResourceInfo = [] ∧
    (resetFinish gwf true doc update s).configRefreshCount = s.configRefreshCount + 1 := by
  unfold resetFinish
  cases update with
  | false => exact ⟨rfl, rfl, rfl, rfl, rfl⟩
  | true =>
    simp only [if_true, if_pos]
    refine ⟨?_, ?_, ?_, ?_, ?_⟩ <;>
      simp [refresh_disabledLibraries, refresh_libraryPath2ExecutionInfo,
        refresh_workspaceFolder2ExecutionInfos, refresh_resource2ResourceInfo,
        refresh_configRefreshCount]

/-- Claim C4: every completed invocation of the reset workflow that
performs a clearing step — any of the three granularities, excluding
only the session path that re-asks immediately because exactly one
library was decided this session — empties `disabledLibraries`, the
Execution Info registry (both the libraryPath map and the
workspace-folder index), and the Resource Status registry, and triggers
a configuration re-fetch by the language server; no registry entry
referencing a cleared decision survives. -/
theorem resetLibraryConfirmations_wipes (gwf : String → Option String) (doc : Option Doc)
    (idx : Nat) (kind : ResetKind) (askItem : Option ConfirmationSelection) (update : Bool)
    (s : ClientState)
    (hsel : (resetQuickPickItems s).get? idx = some kind)
    (hsession : kind = ResetKind.session → s.sessionState.length ≠ 1) :
    (resetLibraryConfirmations gwf true doc (some idx) askItem update s).disabledLibraries =
        [] ∧
    (resetLibraryConfirmations gwf true doc (some idx) askItem update
        s).libraryPath2ExecutionInfo = [] ∧
    (resetLibraryConfirmations gwf true doc (some idx) askItem update
        s).workspaceFolder2ExecutionInfos = [] ∧
    (resetLibraryConfirmations gwf true doc (some idx) askItem update
        s).resource2ResourceInfo = [] ∧
    (resetLibraryConfirmations gwf true doc (some idx) askItem update s).configRefreshCount =
        s.configRefreshCount + 1 := by
  unfold resetLibraryConfirmations
  simp only [Option.some_bind]
  rw [hsel]
  cases kind with
  | allKind => exact resetFinish_clears gwf doc update _
  | alwaysAllowKind => exact resetFinish_clears gwf doc update _
  | session =>
    simp only
    rw [if_neg (hsession rfl)]
    exact resetFinish_clears gwf doc update _

/-- Witness for claim C4 at a concrete input (the all granularity from
the initial state). -/
theorem resetLibraryConfirmations_wipes_witness :
    (resetLibraryConfirmations gwfNone true none (some 1) none true
        initialState).disabledLibraries = [] ∧
    (resetLibraryConfirmations gwfNone true none (some 1) none true
        initialState).libraryPath2ExecutionInfo = [] ∧
    (resetLibraryConfirmations gwfNone true none (some 1) none true
        initialState).workspaceFolder2ExecutionInfos = [] ∧
    (resetLibraryConfirmations gwfNone true none (some 1) none true
        initialState).resource2ResourceInfo = [] ∧
    (resetLibraryConfirmations gwfNone true none (some 1) none true
        initialState).configRefreshCount = initialState.configRefreshCount + 1 :=
  resetLibraryConfirmations_wipes gwfNone none 1 ResetKind.allKind none true initialState
    (by decide) (fun h => nomatch h)


/-! ## Claim C7 -/

/-- The invariant of claim C7: at most one ExecutionInfo per libraryPath
and at most one ResourceInfo per resource uri, i.e. the keys of both
registries are duplicate-free. -/
def RegistryKeysUnique (s : ClientState) : Prop :=
  (s.libraryPath2ExecutionInfo.map Prod.fst).Nodup ∧
  (s.resource2ResourceInfo.map Prod.fst).Nodup

theorem keysUnique_of_frame {s t : ClientState} (hf : RegistryFrame s t)
    (h : RegistryKeysUnique s) : RegistryKeysUnique t := by
  obtain ⟨-, -, -, -, -, -, h7, -, h9, -, -, -⟩ := hf
  exact ⟨by rw [h9]; exact h.1, by rw [h7]; exact h.2⟩

theorem keysUnique_updateExecutionInfo (s : ClientState) (params : ExecutionParams)
    (result : ConfirmExecutionResult) (h : RegistryKeysUnique s) :
    RegistryKeysUnique (updateExecutionInfo s params result) := by
  unfold updateExecutionInfo
  split
  · exact ⟨nodup_keys_mapSet _ _ h.1, h.2⟩
  · exact ⟨h.1, h.2⟩

theorem keysUnique_clearDiagnosticState (s : ClientState) (p : String)
    (h : RegistryKeysUnique s) : RegistryKeysUnique (clearDiagnosticState s p) := by
  unfold clearDiagnosticState
  split
  · exact h
  · exact keysUnique_of_frame (registryFrame_clearInfo s _) h

theorem keysUnique_clearAll_aux (l : List Nat) :
    ∀ s : ClientState, RegistryKeysUnique s → RegistryKeysUnique (l.foldl clearInfo s) := by
  induction l with
  | nil => exact fun s h => h
  | cons a rest ih =>
    exact fun s h => ih (clearInfo s a) (keysUnique_of_frame (registryFrame_clearInfo s a) h)

theorem keysUnique_refresh (gwf : String → Option String) (doc : Option Doc)
    (s : ClientState) (h : RegistryKeysUnique s) :
    RegistryKeysUnique (updateStatusBarAndDiagnostics gwf doc s) :=
  keysUnique_of_frame (registryFrame_updateStatusBarAndDiagnostics gwf doc s) h

theorem keysUnique_updateStatusInfo (param : StatusParams) (s : ClientState)
    (h : RegistryKeysUnique s) : RegistryKeysUnique (updateStatusInfo param s) := by
  simp only [updateStatusInfo]
  split <;> exact ⟨h.1, nodup_keys_mapSet _ _ h.2⟩

theorem keysUnique_confirmExecutionHandler (gwf : String → Option String)
    (fault : FaultPoint) (doc : Option Doc) (params : ConfirmExecutionParams)
    (s : ClientState) (h : RegistryKeysUnique s) :
    RegistryKeysUnique (confirmExecutionHandler gwf fault doc params s).2 := by
  have h0 : RegistryKeysUnique
      ({ s with sessionState :=
          mapSet s.sessionState params.libraryPath params.toExecutionParams }) := ⟨h.1, h.2⟩
  have h1 : ∀ p t, RegistryKeysUnique t → RegistryKeysUnique (confirmDecide p t).2 := by
    intro p t ht
    unfold confirmDecide
    split
    · exact ht
    · split
      · exact keysUnique_clearDiagnosticState t p ht
      · split
        · exact keysUnique_clearDiagnosticState t p ht
        · exact ht
  have h2 : ∀ t r, RegistryKeysUnique t →
      RegistryKeysUnique (confirmUpsertExecutionInfo gwf params r t).2 := by
    intro t r ht
    unfold confirmUpsertExecutionInfo
    split
    · split
      · exact ⟨nodup_keys_mapSet _ _ ht.1, ht.2⟩
      · exact ⟨nodup_keys_mapSet _ _ ht.1, ht.2⟩
    · exact ⟨ht.1, ht.2⟩
  have h3 : ∀ t r a, RegistryKeysUnique t →
      RegistryKeysUnique (confirmUpsertResourceInfo params r a t) := by
    intro t r a ht
    unfold confirmUpsertResourceInfo
    split <;> exact ⟨ht.1, nodup_keys_mapSet _ _ ht.2⟩
  unfold confirmExecutionHandler
  split
  · exact h0
  · split
    · exact h1 _ _ h0
    · split
      · exact h3 _ _ _ (h2 _ _ (h1 _ _ h0))
      · exact keysUnique_refresh gwf doc _ (h3 _ _ _ (h2 _ _ (h1 _ _ h0)))

theorem keysUnique_askForLibraryConfirmation (gwf : String → Option String)
    (hasClient : Bool) (doc : Option Doc) (params : ExecutionParams)
    (item : Option ConfirmationSelection) (update : Bool) (s : ClientState)
    (h : RegistryKeysUnique s) :
    RegistryKeysUnique (askForLibraryConfirmation gwf hasClient doc params item update s) := by
  have h0 : RegistryKeysUnique
      ({ s with sessionState := mapSet s.sessionState params.libraryPath params }) :=
    ⟨h.1, h.2⟩
  unfold askForLibraryConfirmation
  rcases item with _ | sel
  · exact h0
  · simp only
    have h1 : ∀ t : ClientState, RegistryKeysUnique t → RegistryKeysUnique
        (if update then updateStatusBarAndDiagnostics gwf doc t else t) := by
      intro t ht
      split
      · exact keysUnique_refresh gwf doc t ht
      · exact ht
    have h2 : ∀ t : ClientState, RegistryKeysUnique t → RegistryKeysUnique
        (if hasClient then { t with configRefreshCount := t.configRefreshCount + 1 } else t) := by
      intro t ht
      split
      · exact ⟨ht.1, ht.2⟩
      · exact ht
    apply h2
    apply h1
    split
    · exact keysUnique_clearDiagnosticState _ _
        (keysUnique_updateExecutionInfo _ _ _ ⟨h0.1, h0.2⟩)
    · split
      · exact keysUnique_clearDiagnosticState _ _
          (keysUnique_updateExecutionInfo _ _ _ ⟨h0.1, h0.2⟩)
      · split
        · exact keysUnique_clearAll_aux _ _
            (keysUnique_updateExecutionInfo _ _ _ ⟨h0.1, h0.2⟩)
        · exact ⟨h0.1, h0.2⟩

theorem keysUnique_resetFinish (gwf : String → Option String) (hasClient : Bool)
    (doc : Option Doc) (update : Bool) (t : ClientState) :
    RegistryKeysUnique (resetFinish gwf hasClient doc update t) := by
  simp only [resetFinish]
  split
  · split
    · exact keysUnique_refresh gwf doc _ ⟨List.nodup_nil, List.nodup_nil⟩
    · exact ⟨List.nodup_nil, List.nodup_nil⟩
  · split
    · exact keysUnique_refresh gwf doc _ ⟨List.nodup_nil, List.nodup_nil⟩
    · exact ⟨List.nodup_nil, List.nodup_nil⟩

theorem keysUnique_resetLibraryConfirmations (gwf : String → Option String)
    (hasClient : Bool) (doc : Option Doc) (selectedIdx : Option Nat)
    (askItem : Option ConfirmationSelection) (update : Bool) (s : ClientState)
    (h : RegistryKeysUnique s) :
    RegistryKeysUnique
      (resetLibraryConfirmations gwf hasClient doc selectedIdx askItem update s) := by
  have hfin : ∀ t : ClientState, RegistryKeysUnique (resetFinish gwf hasClient doc update t) :=
    keysUnique_resetFinish gwf hasClient doc update
  unfold resetLibraryConfirmations
  split
  · exact h
  · split
    · exact hfin _
    · exact hfin _
    · split
      · split
        · exact keysUnique_askForLibraryConfirmation gwf hasClient doc _ askItem update s h
        · exact h
      · exact hfin _

theorem keysUnique_noConfigRequestHandler (gwf : String → Option String) (doc : Option Doc)
    (uri : String) (s : ClientState) (h : RegistryKeysUnique s) :
    RegistryKeysUnique (noConfigRequestHandler gwf doc uri s) := by
  unfold noConfigRequestHandler
  apply keysUnique_refresh
  split <;> exact ⟨h.1, nodup_keys_mapSet _ _ h.2⟩

theorem keysUnique_didClose (uri : String) (s : ClientState) (h : RegistryKeysUnique s) :
    RegistryKeysUnique (didCloseTextDocumentHandler uri s) :=
  ⟨h.1, nodup_keys_mapDelete _ h.2⟩

/-- Claim C7: every operation of the trust engine preserves the invariant
that there is at most one ExecutionInfo per libraryPath and at most one
ResourceInfo per resource uri — each update path looks the existing
entry up and mutates it in place, creating an entry only when none
exists for that key. -/
theorem trustEngine_registryKeysUnique (gwf : String → Option String)
    (fault : FaultPoint) (doc : Option Doc) (cparams : ConfirmExecutionParams)
    (params : ExecutionParams) (result : ConfirmExecutionResult) (param : StatusParams)
    (uri : String) (item : Option ConfirmationSelection) (hasClient update : Bool)
    (selectedIdx : Option Nat) (askItem : Option ConfirmationSelection) (s : ClientState)
    (h : RegistryKeysUnique s) :
    RegistryKeysUnique (confirmExecutionHandler gwf fault doc cparams s).2 ∧
    RegistryKeysUnique (updateExecutionInfo s params result) ∧
    RegistryKeysUnique (updateStatusInfo param s) ∧
    RegistryKeysUnique (askForLibraryConfirmation gwf hasClient doc params item update s) ∧
    RegistryKeysUnique
      (resetLibraryConfirmations gwf hasClient doc selectedIdx askItem update s) ∧
    RegistryKeysUnique (updateStatusBarAndDiagnostics gwf doc s) ∧
    RegistryKeysUnique (noConfigRequestHandler gwf doc uri s) ∧
    RegistryKeysUnique (didCloseTextDocumentHandler uri s) :=
  ⟨keysUnique_confirmExecutionHandler gwf fault doc cparams s h,
   keysUnique_updateExecutionInfo s params result h,
   keysUnique_updateStatusInfo param s h,
   keysUnique_askForLibraryConfirmation gwf hasClient doc params item update s h,
   keysUnique_resetLibraryConfirmations gwf hasClient doc selectedIdx askItem update s h,
   keysUnique_refresh gwf doc s h,
   keysUnique_noConfigRequestHandler gwf doc uri s h,
   keysUnique_didClose uri s h⟩

/-- Witness for claim C7 at a concrete input. -/
theorem trustEngine_registryKeysUnique_witness :
    RegistryKeysUnique
      (confirmExecutionHandler gwfNone FaultPoint.noFault none exampleRequest initialState).2 :=
  (trustEngine_registryKeysUnique gwfNone FaultPoint.noFault none exampleRequest
      exampleRequest.toExecutionParams ConfirmExecutionResult.approved
      { uri := "file:///proj/a.js", state := Status.ok } "file:///proj/a.js" none true true
      none none initialState ⟨List.nodup_nil, List.nodup_nil⟩).1


/-- An ExecutionInfo that is pending and carries a published diagnostic
on the example resource. -/
def pendingDiagInfo : ExecutionInfo :=
  { params := exampleRequest.toExecutionParams,
    result := ConfirmExecutionResult.confirmationPending,
    editorErrorUri := some "file:///proj/a.js",
    diagnostics := [("file:///proj/a.js",
      [{ range := (0, 0, 0, 0), message := diagnosticMessage,
         severity := warningSeverity, source := linter }])],
    codeActionProvider := none }

/-- A state where the example library is pending with a published
diagnostic but the store already holds an explicit `true` for it. -/
def approvedPendingDiagState : ClientState :=
  { initialState with
      eslintExecutionLibs := [("/proj/node_modules/linter", true)],
      heap := [(0, pendingDiagInfo)],
      nextAddr := 1,
      libraryPath2ExecutionInfo := [("/proj/node_modules/linter", 0)] }

/-! ## Claim C6 -/

theorem heapModify_at (h : List (Nat × ExecutionInfo)) (a : Nat)
    (f : ExecutionInfo → ExecutionInfo) (info : ExecutionInfo)
    (hget : mapGet h a = some info) : mapGet (heapModify h a f) a = some (f info) := by
  unfold heapModify
  rw [hget]
  exact mapGet_mapSet_self h a (f info)

theorem clearInfo_heapAt (s : ClientState) (a : Nat) (info : ExecutionInfo)
    (h : mapGet s.heap a = some info) :
    mapGet (clearInfo s a).heap a = some { info with diagnostics := [] } := by
  simp only [clearInfo, h]
  exact mapGet_mapSet_self s.heap a _

theorem clearInfo_lib2exec (s : ClientState) (a : Nat) :
    (clearInfo s a).libraryPath2ExecutionInfo = s.libraryPath2ExecutionInfo :=
  (registryFrame_clearInfo s a).2.2.2.2.2.2.2.2.1

theorem clearDiagnosticState_heapAt (t : ClientState) (p : String) (addr : Nat)
    (info : ExecutionInfo) (ha : mapGet t.libraryPath2ExecutionInfo p = some addr)
    (hi : mapGet t.heap addr = some info) :
    mapGet (clearDiagnosticState t p).heap addr = some { info with diagnostics := [] } := by
  simp only [clearDiagnosticState, ha]
  exact clearInfo_heapAt t addr info hi

theorem clearDiagnosticState_lib2exec (t : ClientState) (p : String) :
    (clearDiagnosticState t p).libraryPath2ExecutionInfo = t.libraryPath2ExecutionInfo := by
  unfold clearDiagnosticState
  split
  · rfl
  · rw [clearInfo_lib2exec]

theorem confirmUpsertResourceInfo_heap (params : ConfirmExecutionParams)
    (result : ConfirmExecutionResult) (addr : Nat) (s : ClientState) :
    (confirmUpsertResourceInfo params result addr s).heap = s.heap := by
  simp only [confirmUpsertResourceInfo]
  split <;> rfl

theorem clearLastExecutionInfo_heapAt (s : ClientState) (a : Nat) (info : ExecutionInfo)
    (h : mapGet s.heap a = some info) :
    ∃ info2, mapGet (clearLastExecutionInfo s).heap a = some info2 ∧
      info2.result = info.result ∧ (info.diagnostics = [] → info2.diagnostics = []) := by
  rcases hl : s.lastExecutionInfo with _ | la
  · exact ⟨info, by simp only [clearLastExecutionInfo, hl]; exact h, rfl, fun hd => hd⟩
  · rcases hla : mapGet s.heap la with _ | linfo
    · exact ⟨info, by simp only [clearLastExecutionInfo, hl, hla]; exact h, rfl, fun hd => hd⟩
    · by_cases hab : la = a
      · subst hab
        rw [h] at hla
        injection hla with hla
        subst hla
        rcases hp : info.codeActionProvider with _ | p <;>
          rcases he : info.editorErrorUri with _ | u <;>
            (simp only [clearLastExecutionInfo, hl, h, hp, he]
             refine ⟨_, mapGet_mapSet_self _ _ _, rfl, fun hd => ?_⟩
             simp [hd, mapDelete])
      · refine ⟨info, ?_, rfl, fun hd => hd⟩
        simp only [clearLastExecutionInfo, hl, hla]
        rw [mapGet_mapSet_ne _ _ _ _ hab]
        exact h

theorem handleEditor_heapAt (s : ClientState) (d : Doc) (a : Nat) (info : ExecutionInfo)
    (h : mapGet s.heap a = some info)
    (hres : info.result ≠ ConfirmExecutionResult.confirmationPending) :
    mapGet (handleEditor s d).heap a = some info := by
  rcases hri : mapGet s.resource2ResourceInfo d.uri with _ | ri
  · simp only [handleEditor, hri]; exact h
  · rcases hlink : ri.executionInfo with _ | addr2
    · simp only [handleEditor, hri, hlink]; exact h
    · rcases hh : mapGet s.heap addr2 with _ | info2
      · simp only [handleEditor, hri, hlink, hh]; exact h
      · by_cases hcond : info2.result = ConfirmExecutionResult.confirmationPending ∧
            info2.editorErrorUri ≠ some d.uri
        · have hne : addr2 ≠ a := by
            intro he
            subst he
            rw [h] at hh
            injection hh with hh
            subst hh
            exact hres hcond.1
          simp only [handleEditor, hri, hlink, hh, if_pos hcond]
          rw [mapGet_mapSet_ne _ _ _ _ hne]
          exact h
        · simp only [handleEditor, hri, hlink, hh, if_neg hcond]
          exact h

theorem refresh_heapAt (gwf : String → Option String) (doc : Option Doc) (s : ClientState)
    (a : Nat) (info : ExecutionInfo) (h : mapGet s.heap a = some info)
    (hres : info.result ≠ ConfirmExecutionResult.confirmationPending)
    (hd : info.diagnostics = []) :
    ∃ info2, mapGet (updateStatusBarAndDiagnostics gwf doc s).heap a = some info2 ∧
      info2.diagnostics = [] := by
  unfold updateStatusBarAndDiagnostics
  obtain ⟨i1, h1, hres1, hd1⟩ :
      ∃ i1, mapGet (if s.lastExecutionInfo ≠ getExecutionInfo gwf s doc true then
          clearLastExecutionInfo s else s).heap a = some i1 ∧
        i1.result = info.result ∧ i1.diagnostics = [] := by
    split
    · obtain ⟨i1, h1, hres1, hdimp⟩ := clearLastExecutionInfo_heapAt s a info h
      exact ⟨i1, h1, hres1, hdimp hd⟩
    · exact ⟨info, h, rfl, hd⟩
  have hres1' : i1.result ≠ ConfirmExecutionResult.confirmationPending := by
    rw [hres1]; exact hres
  rcases doc with _ | d
  · obtain ⟨i2, h2, _, hdimp⟩ := clearLastExecutionInfo_heapAt _ a i1 h1
    exact ⟨i2, h2, hdimp hd1⟩
  · simp only
    split
    · exact ⟨i1, handleEditor_heapAt _ d a i1 h1 hres1', hd1⟩
    · obtain ⟨i2, h2, _, hdimp⟩ := clearLastExecutionInfo_heapAt _ a i1 h1
      exact ⟨i2, h2, hdimp hd1⟩

/-- Claim C6: whenever a confirmation resolves to approved or denied from
an explicit stored boolean or from the always-allow flag, the diagnostics
previously published against that library's ExecutionInfo are cleared
and stay cleared through the status refresh, so the resource that
carried the pending warning no longer carries it. -/
theorem confirmExecution_approvedOrDenied_clearsDiagnostics (gwf : String → Option String)
    (doc : Option Doc) (params : ConfirmExecutionParams) (s : ClientState) (addr : Nat)
    (info0 : ExecutionInfo)
    (hdis : params.libraryPath ∉ s.disabledLibraries)
    (hdec : (∃ b, mapGet s.eslintExecutionLibs params.libraryPath = some b) ∨
        (mapGet s.eslintExecutionLibs params.libraryPath = none ∧
          s.eslintAlwaysAllowExecutionState = true))
    (haddr : mapGet s.libraryPath2ExecutionInfo params.libraryPath = some addr)
    (hinfo : mapGet s.heap addr = some info0) :
    ((confirmExecutionHandler gwf FaultPoint.noFault doc params s).1 =
        ConfirmExecutionResult.approved ∨
      (confirmExecutionHandler gwf FaultPoint.noFault doc params s).1 =
        ConfirmExecutionResult.denied) ∧
    ∃ info2,
      mapGet (confirmExecutionHandler gwf FaultPoint.noFault doc params s).2.heap addr =
        some info2 ∧ info2.diagnostics = [] := by
  constructor
  · rw [confirmExecutionHandler_fst gwf doc params s, if_neg hdis]
    rcases hdec with ⟨b, hb⟩ | ⟨hn, ha⟩
    · rw [hb]
      cases b
      · exact Or.inr rfl
      · exact Or.inl rfl
    · rw [hn, if_pos ha]
      exact Or.inl rfl
  · have hstate :
        ∃ r, r ≠ ConfirmExecutionResult.confirmationPending ∧
          (confirmExecutionHandler gwf FaultPoint.noFault doc params s).2 =
            updateStatusBarAndDiagnostics gwf doc
              (confirmUpsertResourceInfo params r
                (confirmUpsertExecutionInfo gwf params r
                  (clearDiagnosticState
                    ({ s with sessionState :=
                        mapSet s.sessionState params.libraryPath params.toExecutionParams })
                    params.libraryPath)).1
                (confirmUpsertExecutionInfo gwf params r
                  (clearDiagnosticState
                    ({ s with sessionState :=
                        mapSet s.sessionState params.libraryPath params.toExecutionParams })
                    params.libraryPath)).2) := by
      rcases hdec with ⟨b, hb⟩ | ⟨hn, ha⟩
      · refine ⟨if b then ConfirmExecutionResult.approved else ConfirmExecutionResult.denied,
          by cases b <;> simp, ?_⟩
        simp only [confirmExecutionHandler, confirmDecide, hdis, hb]
        cases b <;> simp
      · refine ⟨ConfirmExecutionResult.approved, by simp, ?_⟩
        simp only [confirmExecutionHandler, confirmDecide, hdis, hn, ha]
        simp
    obtain ⟨r, hrnp, heq⟩ := hstate
    rw [heq]
    have hclear : mapGet (clearDiagnosticState
        ({ s with sessionState :=
            mapSet s.sessionState params.libraryPath params.toExecutionParams })
        params.libraryPath).heap addr = some { info0 with diagnostics := [] } :=
      clearDiagnosticState_heapAt _ params.libraryPath addr info0 haddr hinfo
    have hlib : mapGet (clearDiagnosticState
        ({ s with sessionState :=
            mapSet s.sessionState params.libraryPath params.toExecutionParams })
        params.libraryPath).libraryPath2ExecutionInfo params.libraryPath = some addr := by
      rw [clearDiagnosticState_lib2exec]
      exact haddr
    have hupsert : mapGet (confirmUpsertResourceInfo params r
        (confirmUpsertExecutionInfo gwf params r
          (clearDiagnosticState
            ({ s with sessionState :=
                mapSet s.sessionState params.libraryPath params.toExecutionParams })
            params.libraryPath)).1
        (confirmUpsertExecutionInfo gwf params r
          (clearDiagnosticState
            ({ s with sessionState :=
                mapSet s.sessionState params.libraryPath params.toExecutionParams })
            params.libraryPath)).2).heap addr =
        some { info0 with diagnostics := [], result := r } := by
      rw [confirmUpsertResourceInfo_heap]
      simp only [confirmUpsertExecutionInfo, hlib]
      exact heapModify_at _ addr _ _ hclear
    obtain ⟨i2, h2, hd2⟩ := refresh_heapAt gwf doc _ addr _ hupsert (by simpa using hrnp) rfl
    exact ⟨i2, h2, hd2⟩

/-- Witness for claim C6 at a concrete input: the example library has a
stored `true`, its ExecutionInfo at address 0 carries a published
diagnostic, and the handler both answers approved and leaves the
diagnostic collection empty. -/
theorem confirmExecution_approvedOrDenied_clearsDiagnostics_witness :
    ((confirmExecutionHandler gwfNone FaultPoint.noFault none exampleRequest
        approvedPendingDiagState).1 = ConfirmExecutionResult.approved ∨
      (confirmExecutionHandler gwfNone FaultPoint.noFault none exampleRequest
        approvedPendingDiagState).1 = ConfirmExecutionResult.denied) ∧
    ∃ info2,
      mapGet (confirmExecutionHandler gwfNone FaultPoint.noFault none exampleRequest
          approvedPendingDiagState).2.heap 0 = some info2 ∧ info2.diagnostics = [] :=
  confirmExecution_approvedOrDenied_clearsDiagnostics gwfNone none exampleRequest
    approvedPendingDiagState 0 pendingDiagInfo (by decide)
    (Or.inl ⟨true, rfl⟩) rfl rfl


/-! ## Claim C8 -/

/-- The heap keys stay below the allocation counter, so fresh
allocations never clobber a live info. -/
def HeapBounded (s : ClientState) : Prop :=
  ∀ e ∈ s.heap, e.1 < s.nextAddr

/-- A single info's diagnostic collection holds at most the one entry
published for its `editorErrorUri`. -/
def InfoDiagOk (info : ExecutionInfo) : Prop :=
  info.diagnostics.length ≤ 1 ∧ ∀ e ∈ info.diagnostics, info.editorErrorUri = some e.1

/-- The diagnostic/code-action-pair invariant of claim C8: every
published diagnostic lives on the info currently tracked as
`lastExecutionInfo` (hence no two resources hold a live pair and no info
holds two), at most one code-action provider is live, and a live
provider is the one registered on that same tracked info. -/
def PairInv (s : ClientState) : Prop :=
  (∀ a info, mapGet s.heap a = some info →
      InfoDiagOk info ∧ (info.diagnostics ≠ [] → s.lastExecutionInfo = some a)) ∧
  s.liveProviders.length ≤ 1 ∧
  (∀ p ∈ s.liveProviders, ∃ a, s.lastExecutionInfo = some a ∧
      ∃ info, mapGet s.heap a = some info ∧ info.codeActionProvider = some p)

/-- The full diagnostics-lifecycle invariant. -/
def DiagInv (s : ClientState) : Prop :=
  HeapBounded s ∧ PairInv s

/-- The state right after `clearLastExecutionInfo`: no published
diagnostic at all, no live provider, nothing tracked. -/
def DiagCleared (s : ClientState) : Prop :=
  (∀ a info, mapGet s.heap a = some info → info.diagnostics = []) ∧
  s.liveProviders = [] ∧ s.lastExecutionInfo = none

theorem mapDelete_singleton_self {α β : Type} [DecidableEq α] (e : α × β) :
    mapDelete [e] e.1 = [] := by
  obtain ⟨k, v⟩ := e
  simp [mapDelete]

theorem pairInv_of_cleared {s : ClientState} (h : DiagCleared s) : PairInv s := by
  obtain ⟨hd, hl, hn⟩ := h
  refine ⟨?_, ?_, ?_⟩
  · intro a info hi
    exact ⟨⟨by simp [hd a info hi], by simp [hd a info hi]⟩,
      fun hne => absurd (hd a info hi) hne⟩
  · rw [hl]; simp
  · rw [hl]; simp

theorem liveProviders_nil_of_last_none {s : ClientState}
    (h : PairInv s) (hl : s.lastExecutionInfo = none) : s.liveProviders = [] := by
  cases hlp : s.liveProviders with
  | nil => rfl
  | cons p ps =>
    obtain ⟨a, ha, -⟩ := h.2.2 p (by rw [hlp]; exact List.mem_cons_self p ps)
    rw [hl] at ha
    cases ha

theorem diagCleared_clearLast (s : ClientState) (h : PairInv s) :
    DiagCleared (clearLastExecutionInfo s) := by
  obtain ⟨hpair, hlen, hprov⟩ := h
  rcases hl : s.lastExecutionInfo with _ | la
  · have hlive := liveProviders_nil_of_last_none ⟨hpair, hlen, hprov⟩ hl
    simp only [clearLastExecutionInfo, hl]
    refine ⟨?_, hlive, hl⟩
    intro a info hi
    by_contra hne
    have := (hpair a info hi).2 hne
    rw [hl] at this
    cases this
  · rcases hla : mapGet s.heap la with _ | linfo
    · simp only [clearLastExecutionInfo, hl, hla]
      refine ⟨?_, ?_, rfl⟩
      · intro a info hi
        by_contra hne
        have hx := (hpair a info hi).2 hne
        rw [hl] at hx
        injection hx with hx
        subst hx
        rw [hi] at hla
        cases hla
      · cases hlp : s.liveProviders with
        | nil => rfl
        | cons p ps =>
          obtain ⟨a, ha, info, hinfo, -⟩ :=
            hprov p (by rw [hlp]; exact List.mem_cons_self p ps)
          rw [hl] at ha
          injection ha with ha
          subst ha
          rw [hinfo] at hla
          cases hla
    · have hlive1 :
          (match linfo.codeActionProvider with
            | some p => s.liveProviders.erase p
            | none => s.liveProviders) = [] := by
        cases hlp : s.liveProviders with
        | nil => cases linfo.codeActionProvider <;> simp [List.erase_nil]
        | cons p ps =>
          have hps : ps = [] := by
            have := hlen
            rw [hlp] at this
            simp at this
            exact this
          subst hps
          obtain ⟨a, ha, info, hinfo, hcap⟩ :=
            hprov p (by rw [hlp]; exact List.mem_cons_self p [])
          rw [hl] at ha
          injection ha with ha
          subst ha
          rw [hinfo] at hla
          injection hla with hla
          subst hla
          rw [hcap]
          simp [List.erase_cons]
      rcases hp : linfo.codeActionProvider with _ | p <;>
        rcases he : linfo.editorErrorUri with _ | u <;>
          (refine ⟨?_, ?_, ?_⟩
           rotate_left
           · have := hlive1
             rw [hp] at this
             simpa [clearLastExecutionInfo, hl, hla, hp, he] using this
           · simp [clearLastExecutionInfo, hl, hla, hp, he]
           · intro a info hi
             simp only [clearLastExecutionInfo, hl, hla, hp, he] at hi
             by_cases hab : la = a
             · subst hab
               rw [mapGet_mapSet_self] at hi
               injection hi with hi
               subst hi
               obtain ⟨hlen1, hkey⟩ := (hpair la linfo hla).1
               rcases hdiag : linfo.diagnostics with _ | ⟨e0, drest⟩
               · simp [hdiag, mapDelete]
               · have hdrest : drest = [] := by
                   rw [hdiag] at hlen1
                   simp at hlen1
                   exact hlen1
                 subst hdrest
                 have hk := hkey e0 (by rw [hdiag]; exact List.mem_cons_self e0 [])
                 rw [he] at hk
                 first
                 | (injection hk
                    done)
                 | (injection hk with hk
                    subst hk
                    simp [mapDelete_singleton_self])
             · rw [mapGet_mapSet_ne _ _ _ _ hab] at hi
               by_contra hne
               have hx := (hpair a info hi).2 hne
               rw [hl] at hx
               injection hx with hx
               exact hab hx)


theorem bounded_mapSet_existing {h : List (Nat × ExecutionInfo)} {n a : Nat}
    {i : ExecutionInfo} (hb : ∀ e ∈ h, e.1 < n) (hex : mapGet h a = some i)
    (i2 : ExecutionInfo) : ∀ e ∈ mapSet h a i2, e.1 < n := by
  intro e he
  rcases mem_mapSet he with he1 | hmem
  · subst he1
    exact hb (a, i) (mem_of_mapGet_eq_some hex)
  · exact hb e hmem

theorem heapBounded_clearInfo (s : ClientState) (a : Nat) (hb : HeapBounded s) :
    HeapBounded (clearInfo s a) := by
  rcases hh : mapGet s.heap a with _ | info
  · simp only [clearInfo, hh]; exact hb
  · simp only [clearInfo, hh]; exact bounded_mapSet_existing hb hh _

theorem heapBounded_clearLast (s : ClientState) (hb : HeapBounded s) :
    HeapBounded (clearLastExecutionInfo s) := by
  rcases hl : s.lastExecutionInfo with _ | la
  · simp only [clearLastExecutionInfo, hl]; exact hb
  · rcases hh : mapGet s.heap la with _ | info
    · simp only [clearLastExecutionInfo, hl, hh]; exact hb
    · simp only [clearLastExecutionInfo, hl, hh]; exact bounded_mapSet_existing hb hh _

theorem heapBounded_handleEditor (s : ClientState) (d : Doc) (hb : HeapBounded s) :
    HeapBounded (handleEditor s d) := by
  rcases hri : mapGet s.resource2ResourceInfo d.uri with _ | ri
  · simp only [handleEditor, hri]; exact hb
  · rcases hlink : ri.executionInfo with _ | addr
    · simp only [handleEditor, hri, hlink]; exact hb
    · rcases hh : mapGet s.heap addr with _ | info
      · simp only [handleEditor, hri, hlink, hh]; exact hb
      · by_cases hcond : info.result = ConfirmExecutionResult.confirmationPending ∧
            info.editorErrorUri ≠ some d.uri
        · simp only [handleEditor, hri, hlink, hh, if_pos hcond]
          exact bounded_mapSet_existing hb hh _
        · simp only [handleEditor, hri, hlink, hh, if_neg hcond]
          exact hb

theorem heapBounded_refresh (gwf : String → Option String) (doc : Option Doc)
    (s : ClientState) (hb : HeapBounded s) :
    HeapBounded (updateStatusBarAndDiagnostics gwf doc s) := by
  unfold updateStatusBarAndDiagnostics
  have h1 : HeapBounded (if s.lastExecutionInfo ≠ getExecutionInfo gwf s doc true then
      clearLastExecutionInfo s else s) := by
    split
    · exact heapBounded_clearLast s hb
    · exact hb
  split
  · split
    · exact heapBounded_handleEditor _ _ h1
    · exact heapBounded_clearLast _ h1
  · exact heapBounded_clearLast _ h1

theorem pairInv_clearInfo (s : ClientState) (a : Nat) (h : PairInv s) :
    PairInv (clearInfo s a) := by
  obtain ⟨hpair, hlen, hprov⟩ := h
  rcases hh : mapGet s.heap a with _ | info
  · exact (by simp only [clearInfo, hh]; exact ⟨hpair, hlen, hprov⟩)
  · simp only [clearInfo, hh]
    refine ⟨?_, ?_, ?_⟩
    · intro b i hb
      by_cases hab : a = b
      · subst hab
        rw [mapGet_mapSet_self] at hb
        injection hb with hb
        subst hb
        exact ⟨⟨by simp, by simp⟩, by simp⟩
      · rw [mapGet_mapSet_ne _ _ _ _ hab] at hb
        exact hpair b i hb
    · rcases hp : info.codeActionProvider with _ | p
      · exact hlen
      · exact le_trans (List.length_erase_le _ _) hlen
    · intro q hq
      have hq0 : q ∈ s.liveProviders := by
        rcases hp : info.codeActionProvider with _ | p
        · rw [hp] at hq; exact hq
        · rw [hp] at hq; exact List.mem_of_mem_erase hq
      obtain ⟨a0, ha0, info0, hinfo0, hcap0⟩ := hprov q hq0
      by_cases hab : a = a0
      · subst hab
        rw [hinfo0] at hh
        injection hh with hh
        subst hh
        exact ⟨a, ha0, _, mapGet_mapSet_self _ _ _, hcap0⟩
      · exact ⟨a0, ha0, info0, by rw [mapGet_mapSet_ne _ _ _ _ hab]; exact hinfo0, hcap0⟩

/-- `resourceInfo.executionInfo` of the active document — the value
`getExecutionInfo(doc, true)` computes. -/
def linkOf (s : ClientState) (d : Doc) : Option Nat :=
  match mapGet s.resource2ResourceInfo d.uri with
  | some ri => ri.executionInfo
  | none => none

theorem getExecutionInfo_strict (gwf : String → Option String) (s : ClientState) (d : Doc) :
    getExecutionInfo gwf s (some d) true = linkOf s d := by
  rcases hri : mapGet s.resource2ResourceInfo d.uri with _ | ri <;>
    simp [getExecutionInfo, linkOf, hri]


theorem pairInv_handleEditor (s : ClientState) (d : Doc) (h : PairInv s)
    (hside : s.lastExecutionInfo = linkOf s d ∨ DiagCleared s) :
    PairInv (handleEditor s d) := by
  obtain ⟨hpair, hlen, hprov⟩ := h
  rcases hri : mapGet s.resource2ResourceInfo d.uri with _ | ri
  · simp only [handleEditor, hri]; exact ⟨hpair, hlen, hprov⟩
  · rcases hlink : ri.executionInfo with _ | addr
    · simp only [handleEditor, hri, hlink]; exact ⟨hpair, hlen, hprov⟩
    · rcases hh : mapGet s.heap addr with _ | info
      · simp only [handleEditor, hri, hlink, hh]; exact ⟨hpair, hlen, hprov⟩
      · have hF1 : ∀ b i, b ≠ addr → mapGet s.heap b = some i → i.diagnostics = [] := by
          intro b i hbne hbi
          rcases hside with hlinked | hcleared
          · by_contra hne
            have hx := (hpair b i hbi).2 hne
            rw [hlinked] at hx
            unfold linkOf at hx
            simp only [hri, hlink] at hx
            injection hx with hx
            exact hbne hx.symm
          · exact hcleared.1 b i hbi
        have hF2 := (hpair addr info hh).1
        have hF5 : ∀ p ∈ s.liveProviders, info.codeActionProvider = some p := by
          intro p hp
          rcases hside with hlinked | hcleared
          · obtain ⟨a0, ha0, info0, hinfo0, hcap0⟩ := hprov p hp
            rw [hlinked] at ha0
            unfold linkOf at ha0
            simp only [hri, hlink] at ha0
            injection ha0 with ha0
            subst ha0
            rw [hh] at hinfo0
            injection hinfo0 with hinfo0
            rw [hinfo0]
            exact hcap0
          · rw [hcleared.2.1] at hp
            cases hp
        have hliveNil :
            (match info.codeActionProvider with
              | some p => s.liveProviders.erase p
              | none => s.liveProviders) = [] := by
          cases hlp : s.liveProviders with
          | nil => rcases hcap2 : info.codeActionProvider with _ | p <;> simp [hcap2, hlp]
          | cons q qs =>
            have hqs : qs = [] := by
              have hx := hlen
              rw [hlp] at hx
              simp at hx
              exact hx
            subst hqs
            have hcap := hF5 q (by rw [hlp]; exact List.mem_cons_self q [])
            simp [hcap, hlp, List.erase_cons]
        by_cases hcond : info.result = ConfirmExecutionResult.confirmationPending ∧
            info.editorErrorUri ≠ some d.uri
        · rcases he : info.editorErrorUri with _ | old
          · have hdg : info.diagnostics = [] := by
              rcases hdgc : info.diagnostics with _ | ⟨e0, drest⟩
              · rfl
              · have hx := hF2.2 e0 (by rw [hdgc]; exact List.mem_cons_self e0 drest)
                rw [he] at hx
                cases hx
            simp only [handleEditor, hri, hlink, hh, if_pos hcond]
            simp only [he, hdg, hliveNil, mapSet, List.nil_append]
            refine ⟨?_, by simp, ?_⟩
            · intro b i hbi
              by_cases hab : addr = b
              · subst hab
                rw [mapGet_mapSet_self] at hbi
                injection hbi with hbi
                subst hbi
                refine ⟨⟨by simp, by simp⟩, fun _ => rfl⟩
              · rw [mapGet_mapSet_ne _ _ _ _ hab] at hbi
                have hz := hF1 b i (fun hx => hab hx.symm) hbi
                exact ⟨⟨by simp [hz], by simp [hz]⟩, fun hne => absurd hz hne⟩
            · intro p hp
              simp at hp
              subst hp
              exact ⟨addr, rfl, _, mapGet_mapSet_self _ _ _, rfl⟩
          · have holdne : old ≠ d.uri := by
              intro hx
              subst hx
              exact hcond.2 he
            rcases hdgc : info.diagnostics with _ | ⟨e0, drest⟩
            · simp only [handleEditor, hri, hlink, hh, if_pos hcond]
              simp only [he, hdgc, hliveNil, mapSet, mapDelete,
                if_neg (show ¬(d.uri = old) from Ne.symm holdne), List.nil_append]
              refine ⟨?_, by simp, ?_⟩
              · intro b i hbi
                by_cases hab : addr = b
                · subst hab
                  rw [mapGet_mapSet_self] at hbi
                  injection hbi with hbi
                  subst hbi
                  refine ⟨⟨by simp, by simp⟩, fun _ => rfl⟩
                · rw [mapGet_mapSet_ne _ _ _ _ hab] at hbi
                  have hz := hF1 b i (fun hx => hab hx.symm) hbi
                  exact ⟨⟨by simp [hz], by simp [hz]⟩, fun hne => absurd hz hne⟩
              · intro p hp
                simp at hp
                subst hp
                exact ⟨addr, rfl, _, mapGet_mapSet_self _ _ _, rfl⟩
            · obtain ⟨k0, v0⟩ := e0
              have hdrest : drest = [] := by
                have hx := hF2.1
                rw [hdgc] at hx
                simp at hx
                exact hx
              subst hdrest
              have he2 : info.editorErrorUri = some k0 :=
                hF2.2 (k0, v0) (by rw [hdgc]; exact List.mem_cons_self (k0, v0) [])
              have hk0uri : k0 ≠ d.uri := by
                intro hx
                apply hcond.2
                rw [he2, hx]
              simp only [handleEditor, hri, hlink, hh, if_pos hcond]
              simp only [he2, hdgc, hliveNil, mapSet, mapDelete,
                if_neg (show ¬(k0 = d.uri) from hk0uri), List.nil_append]
              refine ⟨?_, by simp, ?_⟩
              · intro b i hbi
                by_cases hab : addr = b
                · subst hab
                  rw [mapGet_mapSet_self] at hbi
                  injection hbi with hbi
                  subst hbi
                  refine ⟨⟨by simp, by simp⟩, fun _ => rfl⟩
                · rw [mapGet_mapSet_ne _ _ _ _ hab] at hbi
                  have hz := hF1 b i (fun hx => hab hx.symm) hbi
                  exact ⟨⟨by simp [hz], by simp [hz]⟩, fun hne => absurd hz hne⟩
              · intro p hp
                simp at hp
                subst hp
                exact ⟨addr, rfl, _, mapGet_mapSet_self _ _ _, rfl⟩
        · simp only [handleEditor, hri, hlink, hh, if_neg hcond]
          refine ⟨?_, hlen, ?_⟩
          · intro b i hbi
            by_cases hab : b = addr
            · subst hab
              exact ⟨(hpair b i hbi).1, fun _ => rfl⟩
            · exact ⟨(hpair b i hbi).1,
                fun hne => absurd (hF1 b i hab hbi) hne⟩
          · intro p hp
            exact ⟨addr, rfl, info, hh, hF5 p hp⟩


theorem pairInv_refresh (gwf : String → Option String) (doc : Option Doc) (s : ClientState)
    (h : PairInv s) : PairInv (updateStatusBarAndDiagnostics gwf doc s) := by
  rcases doc with _ | d
  · simp only [updateStatusBarAndDiagnostics]
    split
    · exact pairInv_of_cleared
        (diagCleared_clearLast _ (pairInv_of_cleared (diagCleared_clearLast s h)))
    · exact pairInv_of_cleared (diagCleared_clearLast s h)
  · simp only [updateStatusBarAndDiagnostics]
    by_cases hne : s.lastExecutionInfo ≠ getExecutionInfo gwf s (some d) true
    · rw [if_pos hne]
      have hc1 := diagCleared_clearLast s h
      split
      · exact pairInv_handleEditor _ d (pairInv_of_cleared hc1) (Or.inr hc1)
      · exact pairInv_of_cleared (diagCleared_clearLast _ (pairInv_of_cleared hc1))
    · rw [if_neg hne]
      have heq : s.lastExecutionInfo = getExecutionInfo gwf s (some d) true := not_not.mp hne
      split
      · exact pairInv_handleEditor s d h (Or.inl (by rw [heq, getExecutionInfo_strict]))
      · exact pairInv_of_cleared (diagCleared_clearLast s h)

theorem diagInv_refresh (gwf : String → Option String) (doc : Option Doc) (s : ClientState)
    (h : DiagInv s) : DiagInv (updateStatusBarAndDiagnostics gwf doc s) :=
  ⟨heapBounded_refresh gwf doc s h.1, pairInv_refresh gwf doc s h.2⟩

theorem diagInv_congr {s t : ClientState} (hh : t.heap = s.heap)
    (hl : t.liveProviders = s.liveProviders) (hla : t.lastExecutionInfo = s.lastExecutionInfo)
    (hn : t.nextAddr = s.nextAddr) (h : DiagInv s) : DiagInv t := by
  obtain ⟨hb, hpair, hlen, hprov⟩ := h
  refine ⟨?_, ?_, ?_, ?_⟩
  · intro e he
    rw [hh] at he
    rw [hn]
    exact hb e he
  · intro a i hi
    rw [hh] at hi
    rw [hla]
    exact hpair a i hi
  · rw [hl]
    exact hlen
  · intro p hp
    rw [hl] at hp
    obtain ⟨a0, ha0, i0, hi0, hc0⟩ := hprov p hp
    exact ⟨a0, by rw [hla]; exact ha0, i0, by rw [hh]; exact hi0, hc0⟩

theorem diagInv_clearInfo (s : ClientState) (a : Nat) (h : DiagInv s) :
    DiagInv (clearInfo s a) :=
  ⟨heapBounded_clearInfo s a h.1, pairInv_clearInfo s a h.2⟩

theorem diagInv_clearDiagnosticState (s : ClientState) (p : String) (h : DiagInv s) :
    DiagInv (clearDiagnosticState s p) := by
  unfold clearDiagnosticState
  split
  · exact h
  · exact diagInv_clearInfo s _ h

theorem diagInv_clearAll_aux (l : List Nat) :
    ∀ s : ClientState, DiagInv s → DiagInv (l.foldl clearInfo s) := by
  induction l with
  | nil => exact fun s h => h
  | cons a rest ih => exact fun s h => ih (clearInfo s a) (diagInv_clearInfo s a h)

theorem pairBound_alloc (s : ClientState) (newinfo : ExecutionInfo)
    (hdg : newinfo.diagnostics = []) (h : DiagInv s) :
    (∀ e ∈ mapSet s.heap s.nextAddr newinfo, e.1 < s.nextAddr + 1) ∧
    (∀ b i, mapGet (mapSet s.heap s.nextAddr newinfo) b = some i →
        InfoDiagOk i ∧ (i.diagnostics ≠ [] → s.lastExecutionInfo = some b)) ∧
    (∀ p ∈ s.liveProviders, ∃ a0, s.lastExecutionInfo = some a0 ∧
        ∃ i0, mapGet (mapSet s.heap s.nextAddr newinfo) a0 = some i0 ∧
          i0.codeActionProvider = some p) := by
  obtain ⟨hb, hpair, hlen, hprov⟩ := h
  refine ⟨?_, ?_, ?_⟩
  · intro e he
    rcases mem_mapSet he with he1 | hmem
    · subst he1
      exact Nat.lt_succ_self _
    · exact Nat.lt_succ_of_lt (hb e hmem)
  · intro b i hbi
    by_cases hab : s.nextAddr = b
    · subst hab
      rw [mapGet_mapSet_self] at hbi
      injection hbi with hbi
      subst hbi
      exact ⟨⟨by simp [hdg], by simp [hdg]⟩, fun hne => absurd hdg hne⟩
    · rw [mapGet_mapSet_ne _ _ _ _ hab] at hbi
      exact hpair b i hbi
  · intro p hp
    obtain ⟨a0, ha0, i0, hi0, hc0⟩ := hprov p hp
    have ha0ne : s.nextAddr ≠ a0 := by
      intro hx
      have := hb _ (mem_of_mapGet_eq_some hi0)
      rw [hx] at this
      exact absurd this (lt_irrefl a0)
    exact ⟨a0, ha0, i0, by rw [mapGet_mapSet_ne _ _ _ _ ha0ne]; exact hi0, hc0⟩

theorem pairBound_modify (s : ClientState) (a : Nat) (r : ConfirmExecutionResult)
    (h : DiagInv s) :
    (∀ e ∈ heapModify s.heap a (fun i => { i with result := r }), e.1 < s.nextAddr) ∧
    (∀ b i, mapGet (heapModify s.heap a (fun i => { i with result := r })) b = some i →
        InfoDiagOk i ∧ (i.diagnostics ≠ [] → s.lastExecutionInfo = some b)) ∧
    (∀ p ∈ s.liveProviders, ∃ a0, s.lastExecutionInfo = some a0 ∧
        ∃ i0, mapGet (heapModify s.heap a (fun i => { i with result := r })) a0 = some i0 ∧
          i0.codeActionProvider = some p) := by
  obtain ⟨hb, hpair, hlen, hprov⟩ := h
  rcases hx : mapGet s.heap a with _ | i
  · simp only [heapModify, hx]
    exact ⟨hb, hpair, hprov⟩
  · simp only [heapModify, hx]
    refine ⟨bounded_mapSet_existing hb hx _, ?_, ?_⟩
    · intro b i2 hbi
      by_cases hab : a = b
      · subst hab
        rw [mapGet_mapSet_self] at hbi
        injection hbi with hbi
        subst hbi
        obtain ⟨hok, hlast⟩ := hpair a i hx
        exact ⟨hok, hlast⟩
      · rw [mapGet_mapSet_ne _ _ _ _ hab] at hbi
        exact hpair b i2 hbi
    · intro p hp
      obtain ⟨a0, ha0, i0, hi0, hc0⟩ := hprov p hp
      by_cases hab : a = a0
      · subst hab
        rw [hx] at hi0
        injection hi0 with hi0
        subst hi0
        exact ⟨a, ha0, _, mapGet_mapSet_self _ _ _, hc0⟩
      · exact ⟨a0, ha0, i0, by rw [mapGet_mapSet_ne _ _ _ _ hab]; exact hi0, hc0⟩

theorem diagInv_updateExecutionInfo (s : ClientState) (params : ExecutionParams)
    (result : ConfirmExecutionResult) (h : DiagInv s) :
    DiagInv (updateExecutionInfo s params result) := by
  rcases hl : mapGet s.libraryPath2ExecutionInfo params.libraryPath with _ | a
  · simp only [updateExecutionInfo, hl]
    obtain ⟨c1, c2, c3⟩ := pairBound_alloc s
      { params := { libraryPath := params.libraryPath, scope := params.scope },
        result := result, editorErrorUri := none, codeActionProvider := none,
        diagnostics := [] } rfl h
    exact ⟨c1, c2, h.2.2.1, c3⟩
  · simp only [updateExecutionInfo, hl]
    obtain ⟨c1, c2, c3⟩ := pairBound_modify s a result h
    exact ⟨c1, c2, h.2.2.1, c3⟩

theorem diagInv_confirmUpsertExecutionInfo (gwf : String → Option String)
    (params : ConfirmExecutionParams) (result : ConfirmExecutionResult) (s : ClientState)
    (h : DiagInv s) : DiagInv (confirmUpsertExecutionInfo gwf params result s).2 := by
  rcases hl : mapGet s.libraryPath2ExecutionInfo params.libraryPath with _ | a
  · obtain ⟨c1, c2, c3⟩ := pairBound_alloc s
      { params := params.toExecutionParams, result := result, codeActionProvider := none,
        diagnostics := [], editorErrorUri := none } rfl h
    rcases hg : gwf params.uri with _ | folderUri
    · simp only [confirmUpsertExecutionInfo, hl, hg]
      exact ⟨c1, c2, h.2.2.1, c3⟩
    · simp only [confirmUpsertExecutionInfo, hl, hg]
      exact ⟨c1, c2, h.2.2.1, c3⟩
  · simp only [confirmUpsertExecutionInfo, hl]
    obtain ⟨c1, c2, c3⟩ := pairBound_modify s a result h
    exact ⟨c1, c2, h.2.2.1, c3⟩

theorem diagInv_confirmUpsertResourceInfo (params : ConfirmExecutionParams)
    (result : ConfirmExecutionResult) (addr : Nat) (s : ClientState) (h : DiagInv s) :
    DiagInv (confirmUpsertResourceInfo params result addr s) := by
  simp only [confirmUpsertResourceInfo]
  split
  · exact diagInv_congr rfl rfl rfl rfl h
  · exact diagInv_congr rfl rfl rfl rfl h

theorem diagInv_confirmExecutionHandler (gwf : String → Option String) (fault : FaultPoint)
    (doc : Option Doc) (params : ConfirmExecutionParams) (s : ClientState) (h : DiagInv s) :
    DiagInv (confirmExecutionHandler gwf fault doc params s).2 := by
  have h0 :
      DiagInv
        ({ s with
            sessionState := mapSet s.sessionState params.libraryPath params.toExecutionParams }) :=
    diagInv_congr rfl rfl rfl rfl h
  have h1 : ∀ p t, DiagInv t → DiagInv (confirmDecide p t).2 := by
    intro p t ht
    unfold confirmDecide
    split
    · exact ht
    · split
      · exact diagInv_clearDiagnosticState t p ht
      · split
        · exact diagInv_clearDiagnosticState t p ht
        · exact ht
  unfold confirmExecutionHandler
  split
  · exact h0
  · split
    · exact h1 _ _ h0
    · split
      · exact diagInv_confirmUpsertResourceInfo _ _ _ _
          (diagInv_confirmUpsertExecutionInfo gwf params _ _ (h1 _ _ h0))
      · exact diagInv_refresh gwf doc _
          (diagInv_confirmUpsertResourceInfo _ _ _ _
            (diagInv_confirmUpsertExecutionInfo gwf params _ _ (h1 _ _ h0)))

theorem diagInv_askForLibraryConfirmation (gwf : String → Option String) (hasClient : Bool)
    (doc : Option Doc) (params : ExecutionParams) (item : Option ConfirmationSelection)
    (update : Bool) (s : ClientState) (h : DiagInv s) :
    DiagInv (askForLibraryConfirmation gwf hasClient doc params item update s) := by
  have h0 :
      DiagInv
        ({ s with sessionState := mapSet s.sessionState params.libraryPath params }) :=
    diagInv_congr rfl rfl rfl rfl h
  unfold askForLibraryConfirmation
  rcases item with _ | sel
  · exact h0
  · simp only
    have h2 : ∀ t : ClientState, DiagInv t → DiagInv
        (if update then updateStatusBarAndDiagnostics gwf doc t else t) := by
      intro t ht
      split
      · exact diagInv_refresh gwf doc t ht
      · exact ht
    have h3 : ∀ t : ClientState, DiagInv t → DiagInv
        (if hasClient then { t with configRefreshCount := t.configRefreshCount + 1 } else t) := by
      intro t ht
      split
      · exact diagInv_congr rfl rfl rfl rfl ht
      · exact ht
    apply h3
    apply h2
    split
    · exact diagInv_clearDiagnosticState _ _
        (diagInv_updateExecutionInfo _ params _ (diagInv_congr rfl rfl rfl rfl h0))
    · split
      · exact diagInv_clearDiagnosticState _ _
          (diagInv_updateExecutionInfo _ params _ (diagInv_congr rfl rfl rfl rfl h0))
      · split
        · exact diagInv_clearAll_aux _ _
            (diagInv_updateExecutionInfo _ params _ (diagInv_congr rfl rfl rfl rfl h0))
        · exact diagInv_congr rfl rfl rfl rfl h0

theorem diagInv_resetFinish (gwf : String → Option String) (hasClient : Bool)
    (doc : Option Doc) (update : Bool) (t : ClientState) (h : DiagInv t) :
    DiagInv (resetFinish gwf hasClient doc update t) := by
  simp only [resetFinish]
  have hbase : DiagInv ({ t with
      persistedLibs := t.eslintExecutionLibs,
      persistedAlwaysAllow := t.eslintAlwaysAllowExecutionState,
      disabledLibraries := [], libraryPath2ExecutionInfo := [],
      resource2ResourceInfo := [], workspaceFolder2ExecutionInfos := [] }) :=
    diagInv_congr rfl rfl rfl rfl h
  split
  · split
    · exact diagInv_congr rfl rfl rfl rfl (diagInv_refresh gwf doc _ hbase)
    · exact diagInv_congr rfl rfl rfl rfl hbase
  · split
    · exact diagInv_refresh gwf doc _ hbase
    · exact hbase

theorem diagInv_resetLibraryConfirmations (gwf : String → Option String) (hasClient : Bool)
    (doc : Option Doc) (selectedIdx : Option Nat) (askItem : Option ConfirmationSelection)
    (update : Bool) (s : ClientState) (h : DiagInv s) :
    DiagInv (resetLibraryConfirmations gwf hasClient doc selectedIdx askItem update s) := by
  unfold resetLibraryConfirmations
  split
  · exact h
  · split
    · exact diagInv_resetFinish gwf hasClient doc update _ (diagInv_congr rfl rfl rfl rfl h)
    · exact diagInv_resetFinish gwf hasClient doc update _ (diagInv_congr rfl rfl rfl rfl h)
    · split
      · split
        · exact diagInv_askForLibraryConfirmation gwf hasClient doc _ askItem update s h
        · exact h
      · exact diagInv_resetFinish gwf hasClient doc update _ (diagInv_congr rfl rfl rfl rfl h)

theorem diagInv_updateStatusInfo (param : StatusParams) (s : ClientState) (h : DiagInv s) :
    DiagInv (updateStatusInfo param s) := by
  simp only [updateStatusInfo]
  split
  · exact diagInv_congr rfl rfl rfl rfl h
  · exact diagInv_congr rfl rfl rfl rfl h

theorem diagInv_noConfigRequestHandler (gwf : String → Option String) (doc : Option Doc)
    (uri : String) (s : ClientState) (h : DiagInv s) :
    DiagInv (noConfigRequestHandler gwf doc uri s) := by
  simp only [noConfigRequestHandler]
  apply diagInv_refresh
  split
  · exact diagInv_congr rfl rfl rfl rfl h
  · exact diagInv_congr rfl rfl rfl rfl h

/-- Claim C8: at every observable point of the diagnostics lifecycle, no
two resources hold a live synthetic diagnostic/code-action pair at the
same time and no resource accumulates more than one: every published
diagnostic and live provider belongs to the single tracked
`lastExecutionInfo`, and each engine operation — in particular the
status refresh, which disposes any previously attached pair (even one on
a different resource) before attaching a new one — preserves this
invariant. -/
theorem diagnosticsLifecycle_singlePair (gwf : String → Option String) (fault : FaultPoint)
    (doc : Option Doc) (cparams : ConfirmExecutionParams) (params : ExecutionParams)
    (result : ConfirmExecutionResult) (param : StatusParams) (uri : String)
    (item : Option ConfirmationSelection) (hasClient update : Bool)
    (selectedIdx : Option Nat) (askItem : Option ConfirmationSelection) (s : ClientState)
    (h : DiagInv s) :
    DiagInv (updateStatusBarAndDiagnostics gwf doc s) ∧
    DiagInv (confirmExecutionHandler gwf fault doc cparams s).2 ∧
    DiagInv (updateExecutionInfo s params result) ∧
    DiagInv (askForLibraryConfirmation gwf hasClient doc params item update s) ∧
    DiagInv (resetLibraryConfirmations gwf hasClient doc selectedIdx askItem update s) ∧
    DiagInv (updateStatusInfo param s) ∧
    DiagInv (noConfigRequestHandler gwf doc uri s) ∧
    DiagInv (didCloseTextDocumentHandler uri s) :=
  ⟨diagInv_refresh gwf doc s h,
   diagInv_confirmExecutionHandler gwf fault doc cparams s h,
   diagInv_updateExecutionInfo s params result h,
   diagInv_askForLibraryConfirmation gwf hasClient doc params item update s h,
   diagInv_resetLibraryConfirmations gwf hasClient doc selectedIdx askItem update s h,
   diagInv_updateStatusInfo param s h,
   diagInv_noConfigRequestHandler gwf doc uri s h,
   diagInv_congr rfl rfl rfl rfl h⟩

/-- Witness for claim C8 at a concrete input. -/
theorem diagnosticsLifecycle_singlePair_witness :
    DiagInv (confirmExecutionHandler gwfNone FaultPoint.noFault none exampleRequest
        initialState).2 :=
  (diagnosticsLifecycle_singlePair gwfNone FaultPoint.noFault none exampleRequest
      exampleRequest.toExecutionParams ConfirmExecutionResult.approved
      { uri := "file:///proj/a.js", state := Status.ok } "file:///proj/a.js" none true true
      none none initialState
      ⟨fun e he => absurd he (List.not_mem_nil e),
       fun a i hi => by simp [initialState, mapGet] at hi,
       by simp [initialState],
       fun p hp => absurd hp (List.not_mem_nil p)⟩).2.1


/-! ## Claim C9 -/

/-- Modelled from the spec: the `Semaphore` class is imported from
src/client/utils.ts, a file that is not part of the repository snapshot
(only its call sites are), so its behaviour is taken from spec section
4.2: a mutual-exclusion primitive with concurrency exactly 1 whose
`lock(asyncOperation)` queues requests in arrival order (FIFO) and runs
each to completion before the next starts.  An operation (one
ConfirmExecution decide-or-ask sequence) is a list of atomic accesses to
the shared client state followed by a result read. -/
structure SemOperation (σ α : Type) where
  steps : List (σ → σ)
  result : σ → α

/-- Modelled from the spec: the state of the capacity-1 semaphore
machine — the FIFO queue of waiting operations, the single slot for the
running operation with its remaining steps, the completed operations
with their results in completion order, and the shared state. -/
structure SemState (σ α : Type) where
  waiting : List (Nat × SemOperation σ α)
  running : Option (Nat × SemOperation σ α × List (σ → σ))
  finished : List (Nat × α)
  shared : σ

/-- Modelled from the spec: one scheduler step of the capacity-1
semaphore.  Only the running operation ever observes or mutates the
shared state, and a waiting operation is admitted — in FIFO order — only
while nothing is running. -/
def semStep {σ α : Type} (m : SemState σ α) : SemState σ α :=
  match m.running with
  | some (id, op, f :: fs) =>
    { m with shared := f m.shared, running := some (id, op, fs) }
  | some (id, op, []) =>
    { m with finished := m.finished ++ [(id, op.result m.shared)], running := none }
  | none =>
    match m.waiting with
    | [] => m
    | (id, op) :: rest => { m with waiting := rest, running := some (id, op, op.steps) }

def semRun {σ α : Type} : Nat → SemState σ α → SemState σ α
  | 0, m => m
  | n + 1, m => semRun n (semStep m)

/-- The semaphore machine with all requests queued in arrival order and
nothing running, as when concurrent ConfirmExecution requests arrive. -/
def initSem {σ α : Type} (jobs : List (Nat × SemOperation σ α)) (s : σ) : SemState σ α :=
  { waiting := jobs, running := none, finished := [], shared := s }

/-- Scheduler steps spent on one operation: admission, its accesses, and
completion. -/
def opFuel {σ α : Type} (op : SemOperation σ α) : Nat := op.steps.length + 2

def totalFuel {σ α : Type} (jobs : List (Nat × SemOperation σ α)) : Nat :=
  (jobs.map (fun j => opFuel j.2)).sum

/-- Fully serialized execution: each request runs to completion against
the shared state left behind by its predecessor, in arrival order. -/
def runSequentially {σ α : Type} :
    List (Nat × SemOperation σ α) → σ → List (Nat × α) × σ
  | [], s => ([], s)
  | (id, op) :: rest, s =>
    let s1 := op.steps.foldl (fun st f => f st) s
    let r := runSequentially rest s1
    ((id, op.result s1) :: r.1, r.2)

theorem semRun_add {σ α : Type} (a b : Nat) (m : SemState σ α) :
    semRun (a + b) m = semRun b (semRun a m) := by
  induction a generalizing m with
  | zero => simp [semRun]
  | succ a ih =>
    have hx : a + 1 + b = (a + b) + 1 := by omega
    rw [hx]
    show semRun (a + b) (semStep m) = semRun b (semRun a (semStep m))
    exact ih (semStep m)

theorem semRun_steps {σ α : Type} (fs : List (σ → σ)) :
    ∀ (id : Nat) (op : SemOperation σ α) (w : List (Nat × SemOperation σ α))
      (F : List (Nat × α)) (s : σ),
      semRun fs.length
          { waiting := w, running := some (id, op, fs), finished := F, shared := s } =
        { waiting := w, running := some (id, op, []), finished := F,
          shared := fs.foldl (fun st f => f st) s } := by
  induction fs with
  | nil => intro id op w F s; rfl
  | cons f fs ih =>
    intro id op w F s
    show semRun fs.length (semStep _) = _
    simp only [semStep]
    exact ih id op w F (f s)

theorem semRun_one_job {σ α : Type} (id : Nat) (op : SemOperation σ α)
    (rest : List (Nat × SemOperation σ α)) (F : List (Nat × α)) (s : σ) :
    semRun (opFuel op)
        { waiting := (id, op) :: rest, running := none, finished := F, shared := s } =
      { waiting := rest, running := none,
        finished := F ++ [(id, op.result (op.steps.foldl (fun st f => f st) s))],
        shared := op.steps.foldl (fun st f => f st) s } := by
  show semRun (op.steps.length + 2) _ = _
  have h2 : op.steps.length + 2 = 1 + (op.steps.length + 1) := by omega
  rw [h2, semRun_add]
  show semRun (op.steps.length + 1) (semStep _) = _
  simp only [semStep]
  rw [show op.steps.length + 1 = op.steps.length + 1 from rfl, semRun_add]
  rw [semRun_steps op.steps id op rest F s]
  rfl

theorem semRun_sequential {σ α : Type} (jobs : List (Nat × SemOperation σ α)) :
    ∀ (F : List (Nat × α)) (s : σ),
      semRun (totalFuel jobs)
          { waiting := jobs, running := none, finished := F, shared := s } =
        { waiting := [], running := none,
          finished := F ++ (runSequentially jobs s).1,
          shared := (runSequentially jobs s).2 } := by
  induction jobs with
  | nil => intro F s; simp [totalFuel, semRun, runSequentially]
  | cons j rest ih =>
    intro F s
    obtain ⟨id, op⟩ := j
    have htf : totalFuel ((id, op) :: rest) = opFuel op + totalFuel rest := by
      simp [totalFuel]
    rw [htf, semRun_add, semRun_one_job]
    rw [ih (F ++ [(id, op.result (op.steps.foldl (fun st f => f st) s))])
      (op.steps.foldl (fun st f => f st) s)]
    simp [runSequentially]

/-- Claim C9 (spec-modelled, the Semaphore implementation itself is not
in the snapshot): concurrent ConfirmExecution requests wrapped by the
capacity-1 confirmation semaphore are fully serialized — run with
enough scheduler fuel, the machine admits requests in arrival order
(FIFO), runs each decide-or-ask sequence to completion before admitting
the next, and, since only the running operation ever touches the shared
client state, no other confirmation request observes or mutates the
shared registries between one request's entry and exit; the outcome
equals the purely sequential execution in arrival order. -/
theorem confirmationSemaphore_serializes
    (jobs : List (Nat × SemOperation ClientState ConfirmExecutionResult))
    (s0 : ClientState) :
    semRun (totalFuel jobs) (initSem jobs s0) =
      { waiting := [], running := none,
        finished := (runSequentially jobs s0).1,
        shared := (runSequentially jobs s0).2 } := by
  have h := semRun_sequential jobs [] s0
  simpa [initSem] using h

end XoClient
